import Mathlib

/-!
# requestpolicy: whitelist / blacklist admission middleware

Shallow embedding of `requestpolicy.go` (`New`, `ServeHTTP`, `matchQuery`) and
the properties of its rule evaluation.

* The Go standard library package `regexp` is not part of the repository.  It
  enters the embedding as a parameter `E : Engine` (a compiler from pattern
  text to a compiled expression or an error, and a search function on the
  compiled expression).  The package-level `regexp.MatchString` is defined from
  the engine the way the standard library defines it: compile, and on a
  compile error answer `(false, err)`.
* The effects of `ServeHTTP` (the call of the downstream handler and the call
  of `http.Error`) are recorded as the list of calls it performs, in order.
* Properties that speak about concrete patterns use `RE2.engine`, an executable
  model of a fragment of the Go pattern language, through the hypothesis
  `Engine.agreesOn`.
* Pointers are taken to be non-nil: `conf` in `New`, `m.config`, `m.next` and
  `req.URL` in `ServeHTTP` (the program dereferences them without a check).
* The rule lists are Lean lists.  For what `New` does to the memory of its
  caller, the two lists are also modelled as Go slices on backing arrays
  (`New.inMemory`); on well-formed slices it returns the error that `New`
  returns on the two lists (`New_inMemory_error`).
-/

namespace requestpolicy

/-! ## The regular-expression engine (parameter) -/

/-- The part of package `regexp` the program uses: `Compile`, the method
`(*Regexp).MatchString` of a compiled expression, and the text of an error. -/
structure Engine where
  /-- The compiled expressions, `*regexp.Regexp`. -/
  Regexp : Type
  /-- The compilation errors. -/
  Error : Type
  /-- The function `regexp.Compile`. -/
  Compile : String → Except Error Regexp
  /-- The method `(*Regexp).MatchString`: does the text contain a match. -/
  reMatchString : Regexp → String → Bool
  /-- The method `Error()` of a compilation error. -/
  errorString : Error → String

/-- The package-level `regexp.MatchString(pattern, s)`: it compiles the pattern,
returns `(false, err)` when that fails and `(re.MatchString(s), nil)` otherwise. -/
def regexp.MatchString (E : Engine) (pattern s : String) : Bool × Option E.Error :=
  match E.Compile pattern with
  | .error err => (false, some err)
  | .ok re => (E.reMatchString re s, none)

/-! ## An executable model of a fragment of the Go pattern language

The fragment: literal characters, `.`, `^`, `$`, `|`, groups `( )`, the
repetitions `*`, `+`, `?` and their non-greedy forms `*?`, `+?`, `??`, under the
flags of `regexp.Compile` (`syntax.Perl`: `^` and `$` match at the two ends of
the text only, `.` matches every character but the newline).  A pattern with
`[`, `{`, a backslash or `(?`, or longer than 256 characters, is outside the
fragment: `RE2.Parse` answers `ErrorCode.Unmodelled` for it and nothing is said
about what Go does with it.  Texts are sequences of characters (the model does
not cover byte strings that are not UTF-8). -/

namespace RE2

/-- The error codes of `regexp/syntax` that the fragment can raise, and
`Unmodelled` for a pattern outside the fragment. -/
inductive ErrorCode where
  | ErrMissingParen
  | ErrMissingRepeatArgument
  | ErrInvalidRepeatOp
  | ErrUnexpectedParen
  | Unmodelled
deriving DecidableEq, Repr

/-- The text of an error code, `ErrorCode.String`. -/
def ErrorCode.String : ErrorCode → String
  | .ErrMissingParen => "missing closing )"
  | .ErrMissingRepeatArgument => "missing argument to repetition operator"
  | .ErrInvalidRepeatOp => "invalid nested repetition operator"
  | .ErrUnexpectedParen => "unexpected )"
  | .Unmodelled => "pattern outside the modelled fragment"

/-- The struct `syntax.Error`: the code and the offending piece of the pattern. -/
structure Error where
  Code : ErrorCode
  Expr : String
deriving DecidableEq, Repr

/-- The method `(*syntax.Error).Error`. -/
def Error.errorString (e : Error) : String :=
  "error parsing regexp: " ++ e.Code.String ++ ": `" ++ e.Expr ++ "`"

/-- The abstract syntax of the fragment. -/
inductive Regexp where
  | emptyMatch
  | literal (c : Char)
  | anyCharNotNL
  | beginText
  | endText
  | concat (a b : Regexp)
  | alternate (a b : Regexp)
  | star (a : Regexp)
  | plus (a : Regexp)
  | quest (a : Regexp)
  | capture (a : Regexp)
deriving DecidableEq, Repr

/-- One level of the parse stack: what stands between an open parenthesis (or
the start of the pattern) and the current position.  `alts` holds the finished
branches of the alternation and `seq` the operands of the branch being read,
both with the latest first. -/
structure Frame where
  alts : List Regexp
  seq : List Regexp
deriving Repr

/-- The concatenation of the operands `seq` (latest first). -/
def mkConcat (seq : List Regexp) : Regexp :=
  seq.foldl (fun acc r => Regexp.concat r acc) Regexp.emptyMatch

/-- The alternation of the branches of a frame. -/
def Frame.close (f : Frame) : Regexp :=
  f.alts.foldl (fun acc r => Regexp.alternate r acc) (mkConcat f.seq)

/-- The repetition written `c` (one of `*`, `+`, `?`) applied to `r`. -/
def repeatOp (c : Char) (r : Regexp) : Regexp :=
  if c = '*' then Regexp.star r else if c = '+' then Regexp.plus r else Regexp.quest r

/-- The text of a repetition operator at the head of `c :: t`: the operator and
the `?` that makes it non-greedy, when there is one. -/
def opText (c : Char) (t : List Char) : String :=
  if t.head? = some '?' then String.mk [c, '?'] else String.singleton c

/-- What the parser has just read: an open parenthesis, a repetition operator
(with its text), a repetition operator and its non-greedy mark, or anything else. -/
inductive Prev where
  | other
  | lparen
  | op (text : String)
  | lazyOp (text : String)
deriving DecidableEq, Repr

/-- The parse loop: one step per character of the pattern. -/
def parseLoop (whole : String) : List Char → Prev → Frame → List Frame → Except Error Regexp
  | [], _, cur, outer =>
    match outer with
    | [] => .ok cur.close
    | _ :: _ => .error ⟨ErrorCode.ErrMissingParen, whole⟩
  | c :: t, prev, cur, outer =>
    if c = '(' then
      parseLoop whole t Prev.lparen ⟨[], []⟩ (cur :: outer)
    else if c = '|' then
      parseLoop whole t Prev.other ⟨mkConcat cur.seq :: cur.alts, []⟩ outer
    else if c = ')' then
      match outer with
      | [] => .error ⟨ErrorCode.ErrUnexpectedParen, whole⟩
      | o :: os => parseLoop whole t Prev.other ⟨o.alts, Regexp.capture cur.close :: o.seq⟩ os
    else if c = '^' then
      parseLoop whole t Prev.other ⟨cur.alts, Regexp.beginText :: cur.seq⟩ outer
    else if c = '$' then
      parseLoop whole t Prev.other ⟨cur.alts, Regexp.endText :: cur.seq⟩ outer
    else if c = '.' then
      parseLoop whole t Prev.other ⟨cur.alts, Regexp.anyCharNotNL :: cur.seq⟩ outer
    else if c = '*' ∨ c = '+' ∨ c = '?' then
      match prev with
      | Prev.lparen =>
        if c = '?' then .error ⟨ErrorCode.Unmodelled, whole⟩
        else .error ⟨ErrorCode.ErrMissingRepeatArgument, opText c t⟩
      | Prev.op text =>
        if c = '?' then parseLoop whole t (Prev.lazyOp (text ++ "?")) cur outer
        else .error ⟨ErrorCode.ErrInvalidRepeatOp, text ++ opText c t⟩
      | Prev.lazyOp text => .error ⟨ErrorCode.ErrInvalidRepeatOp, text ++ opText c t⟩
      | Prev.other =>
        match cur.seq with
        | [] => .error ⟨ErrorCode.ErrMissingRepeatArgument, opText c t⟩
        | r :: rs =>
          parseLoop whole t (Prev.op (String.singleton c)) ⟨cur.alts, repeatOp c r :: rs⟩ outer
    else if c = '[' ∨ c = '{' ∨ c = '\\' then
      .error ⟨ErrorCode.Unmodelled, whole⟩
    else
      parseLoop whole t Prev.other ⟨cur.alts, Regexp.literal c :: cur.seq⟩ outer

/-- The function `syntax.Parse(s, syntax.Perl)` on the fragment, which is what
`regexp.Compile` runs. -/
def Parse (s : String) : Except Error Regexp :=
  if 256 < s.length then .error ⟨ErrorCode.Unmodelled, s⟩
  else parseLoop s s.data Prev.other ⟨[], []⟩ []

/-- The remainders of the text `s` after zero or more rounds of `step`; a round
that consumes nothing is not repeated, and `fuel` bounds the number of rounds
(the length of `s` is enough, see `starLoop_fuel`). -/
def starLoop (step : List Char → List (List Char)) : Nat → List Char → List (List Char)
  | 0, s => [s]
  | fuel + 1, s =>
    s :: ((step s).filter (fun s' => s'.length < s.length)).flatMap (starLoop step fuel)

/-- The matches of `re` that start at the head of `s`, in a text of length `n`
of which `s` is the part not yet read: the list of what each match leaves. -/
def Regexp.matchAt (n : Nat) : Regexp → List Char → List (List Char)
  | .emptyMatch, s => [s]
  | .literal c, s =>
    match s with
    | [] => []
    | d :: t => if d = c then [t] else []
  | .anyCharNotNL, s =>
    match s with
    | [] => []
    | d :: t => if d = '\n' then [] else [t]
  | .beginText, s => if s.length = n then [s] else []
  | .endText, s => if s.length = 0 then [s] else []
  | .concat a b, s => (a.matchAt n s).flatMap (b.matchAt n)
  | .alternate a b, s => a.matchAt n s ++ b.matchAt n s
  | .star a, s => starLoop (a.matchAt n) s.length s
  | .plus a, s => (a.matchAt n s).flatMap (fun s' => starLoop (a.matchAt n) s'.length s')
  | .quest a, s => a.matchAt n s ++ [s]
  | .capture a, s => a.matchAt n s

/-- The unanchored search: is there a match of `re` starting at some position
of the text, the positions being the suffixes of the list. -/
def Regexp.searchFrom (re : Regexp) (n : Nat) : List Char → Bool
  | [] => !(re.matchAt n []).isEmpty
  | c :: t => !(re.matchAt n (c :: t)).isEmpty || searchFrom re n t

/-- The method `(*Regexp).MatchString`: does `s` contain a match of `re`. -/
def Regexp.MatchString (re : Regexp) (s : String) : Bool :=
  re.searchFrom s.length s.data

/-- The fragment as an engine. -/
def engine : Engine := ⟨Regexp, Error, Parse, Regexp.MatchString, Error.errorString⟩

end RE2

/-- The engine `E` treats `pattern` the way the fragment does: when the fragment
compiles it, `E` compiles it and finds a match in exactly the same texts; when
the fragment reports a syntax error, `E` fails to compile it; when the pattern is
outside the fragment, nothing is asked of `E`. -/
def Engine.agreesOn (E : Engine) (pattern : String) : Prop :=
  match RE2.Parse pattern with
  | .ok re => ∃ re', E.Compile pattern = .ok re' ∧ ∀ s, E.reMatchString re' s = re.MatchString s
  | .error e =>
    if e.Code = RE2.ErrorCode.Unmodelled then True else ∃ e', E.Compile pattern = .error e'

/-! ## Data model -/

/-- The struct `PathConfig`: one rule. -/
structure PathConfig where
  PathRegex : String
  QueryParamRegex : String
deriving DecidableEq, Repr

/-- The struct `Config`: the two ordered rule lists. -/
structure Config where
  WhitelistPaths : List PathConfig
  BlacklistPaths : List PathConfig
deriving DecidableEq, Repr

/-- The function `CreateConfig`: the zero `Config` (both slices nil). -/
def CreateConfig : Config := ⟨[], []⟩

/-- The fields of `url.URL` kept by the embedding. -/
structure url.URL where
  Scheme : String
  Host : String
  Path : String
  RawQuery : String
  Fragment : String
deriving DecidableEq, Repr

/-- The fields of `http.Request` kept by the embedding. -/
structure Request where
  Method : String
  URL : url.URL
  Header : List (String × List String)
  Host : String
  Body : String
deriving DecidableEq, Repr

/-- The struct `Middleware`; `H` is the type of downstream handlers. -/
structure Middleware (H : Type) where
  next : H
  name : String
  config : Config

/-- The constant `http.StatusForbidden`. -/
def http.StatusForbidden : Nat := 403

/-- The calls `ServeHTTP` can perform; `W` is the type of response writers. -/
inductive Call (H W : Type) where
  /-- The call `next.ServeHTTP(rw, req)` of the downstream handler. -/
  | nextServeHTTP (next : H) (rw : W) (req : Request)
  /-- The call `http.Error(rw, error, code)`, the only write to the response writer. -/
  | httpError (rw : W) (error : String) (code : Nat)
deriving DecidableEq

/-- The error built by `fmt.Errorf` with one `%w` verb: the formatted message
and the wrapped error. -/
structure fmt.wrapError (Err : Type) where
  msg : String
  err : Err

/-- The call `fmt.Errorf(format ++ "%w", err)` for a format ending in `%w`. -/
def fmt.Errorf (E : Engine) (before : String) (err : E.Error) : fmt.wrapError E.Error :=
  ⟨before ++ E.errorString err, err⟩

/-- The type `context.Context`; `New` does not use its argument. -/
abbrev context.Context : Type := Unit

/-! ## The program -/

/-- The loop of `New` over `append(conf.WhitelistPaths, conf.BlacklistPaths...)`:
`some e` when the body returned the error `e`, `none` when the loop ran to its end. -/
def New.loop (E : Engine) : List PathConfig → Option (fmt.wrapError E.Error)
  | [] => none
  | pathConfig :: rest =>
    match E.Compile pathConfig.PathRegex with
    | .error err => some (fmt.Errorf E "invalid path regex: " err)
    | .ok _ =>
      match E.Compile pathConfig.QueryParamRegex with
      | .error err => some (fmt.Errorf E "invalid query param regex: " err)
      | .ok _ => New.loop E rest

/-- The function `New`; the result is the Go pair `(http.Handler, error)`, with
`none` for `nil`. -/
def New {H : Type} (E : Engine) (_ctx : context.Context) (next : H) (conf : Config)
    (name : String) : Option (Middleware H) × Option (fmt.wrapError E.Error) :=
  match New.loop E (conf.WhitelistPaths ++ conf.BlacklistPaths) with
  | some e => (none, some e)
  | none => (some ⟨next, name, conf⟩, none)

/-- The function `matchQuery`. -/
def matchQuery (E : Engine) (pathConfig : PathConfig) (query : String) : Bool :=
  if pathConfig.QueryParamRegex = "" then
    true
  else
    (regexp.MatchString E pathConfig.QueryParamRegex query).1

/-- The first loop of `ServeHTTP`, over `m.config.WhitelistPaths`: `some calls`
when the body returned after performing `calls`, `none` when the loop ran to
its end. -/
def ServeHTTP.whitelistLoop {H W : Type} (E : Engine) (m : Middleware H) (rw : W)
    (req : Request) (path query : String) : List PathConfig → Option (List (Call H W))
  | [] => none
  | pathConfig :: rest =>
    let matchPath := (regexp.MatchString E pathConfig.PathRegex path).1
    let matchQ := matchQuery E pathConfig query
    if matchPath && matchQ then
      some [Call.nextServeHTTP m.next rw req]
    else
      ServeHTTP.whitelistLoop E m rw req path query rest

/-- The second loop of `ServeHTTP`, over `m.config.BlacklistPaths`. -/
def ServeHTTP.blacklistLoop {H W : Type} (E : Engine) (rw : W)
    (path query : String) : List PathConfig → Option (List (Call H W))
  | [] => none
  | pathConfig :: rest =>
    let matchPath := (regexp.MatchString E pathConfig.PathRegex path).1
    let matchQ := matchQuery E pathConfig query
    if matchPath && matchQ then
      some [Call.httpError rw "Forbidden" http.StatusForbidden]
    else
      ServeHTTP.blacklistLoop E rw path query rest

/-- The method `(*Middleware).ServeHTTP`: the calls it performs, in order. -/
def ServeHTTP {H W : Type} (E : Engine) (m : Middleware H) (rw : W) (req : Request) :
    List (Call H W) :=
  let path := req.URL.Path
  let query := req.URL.RawQuery
  match ServeHTTP.whitelistLoop E m rw req path query m.config.WhitelistPaths with
  | some calls => calls
  | none =>
    match ServeHTTP.blacklistLoop E rw path query m.config.BlacklistPaths with
    | some calls => calls
    | none => [Call.nextServeHTTP m.next rw req]

/-! ## Vocabulary of the properties -/

/-- The pattern is a valid regular expression: it compiles. -/
def Valid (E : Engine) (pattern : String) : Prop :=
  ∃ re, E.Compile pattern = .ok re

/-- The pattern is found in the text: it compiles and the compiled expression
has a match somewhere in the text. -/
def Found (E : Engine) (pattern s : String) : Prop :=
  ∃ re, E.Compile pattern = .ok re ∧ E.reMatchString re s = true

/-- The rule matches the request: its path pattern is found in the path and its
query pattern is empty or found in the raw query. -/
def Matches (E : Engine) (pc : PathConfig) (path query : String) : Prop :=
  Found E pc.PathRegex path ∧ (pc.QueryParamRegex = "" ∨ Found E pc.QueryParamRegex query)

/-- The number of calls of the downstream handler among `calls`. -/
def nextCalls {H W : Type} (calls : List (Call H W)) : Nat :=
  calls.countP (fun c => match c with
    | .nextServeHTTP _ _ _ => true
    | .httpError _ _ _ => false)

/-- The number of writes to the response writer among `calls`. -/
def writes {H W : Type} (calls : List (Call H W)) : Nat :=
  calls.countP (fun c => match c with
    | .nextServeHTTP _ _ _ => false
    | .httpError _ _ _ => true)

instance Valid.decidable (E : Engine) (pattern : String) : Decidable (Valid E pattern) :=
  match h : E.Compile pattern with
  | .error err => isFalse (fun ⟨re, hre⟩ => by rw [h] at hre; cases hre)
  | .ok re => isTrue ⟨re, h⟩

instance Found.decidable (E : Engine) (pattern s : String) : Decidable (Found E pattern s) :=
  match h : E.Compile pattern with
  | .error err => isFalse (fun ⟨re, hre, _⟩ => by rw [h] at hre; cases hre)
  | .ok re =>
    if hm : E.reMatchString re s = true then isTrue ⟨re, h, hm⟩
    else isFalse (fun ⟨re', hre, hm'⟩ => by
      rw [h] at hre
      cases hre
      exact hm hm')

instance Matches.decidable (E : Engine) (pc : PathConfig) (path query : String) :
    Decidable (Matches E pc path query) :=
  inferInstanceAs (Decidable (_ ∧ _))

/-- A request for `path?query`, the way the tests of the repository build it. -/
def testRequest (path query : String) : Request :=
  ⟨"GET", ⟨"", "", path, query, ""⟩, [], "example.com", ""⟩

/-! ## The rule lists in memory

`New` ranges over `append(conf.WhitelistPaths, conf.BlacklistPaths...)`.  What
this call does to the memory of the caller is not visible on lists, so the two
fields of `conf` are also modelled as Go slices: windows on backing arrays.
The built-in `append` follows the language specification: when the capacity
of the first slice is large enough the backing array is re-used and the new
elements are written behind the first slice, otherwise a new array is
allocated. -/

/-- A slice value: the window of `len` elements that starts at index `off` of
the backing array number `array`; the window may grow up to `cap` elements. -/
structure Slice where
  array : Nat
  off : Nat
  len : Nat
  cap : Nat
deriving DecidableEq, Repr

/-- The memory: the backing arrays by number, and the first number not yet in use. -/
structure Heap where
  arrays : Nat → List PathConfig
  fresh : Nat

/-- The elements of a slice, in order. -/
def Slice.elems (h : Heap) (s : Slice) : List PathConfig :=
  ((h.arrays s.array).drop s.off).take s.len

/-- The slice lies in an allocated array, within its bounds. -/
def Slice.WellFormed (h : Heap) (s : Slice) : Prop :=
  s.array < h.fresh ∧ s.len ≤ s.cap ∧ s.off + s.cap ≤ (h.arrays s.array).length

instance Slice.WellFormed.decidable (h : Heap) (s : Slice) : Decidable (s.WellFormed h) :=
  inferInstanceAs (Decidable (_ ∧ _))

/-- The built-in `append(s, t...)`: the memory after the call and the slice it
returns.  The elements of `t` are read before anything is written. -/
def builtin.append (h : Heap) (s t : Slice) : Heap × Slice :=
  if s.len + t.len ≤ s.cap then
    (⟨Function.update h.arrays s.array
        ((h.arrays s.array).take (s.off + s.len) ++ t.elems h ++
          (h.arrays s.array).drop (s.off + s.len + t.len)), h.fresh⟩,
      ⟨s.array, s.off, s.len + t.len, s.cap⟩)
  else
    (⟨Function.update h.arrays h.fresh (s.elems h ++ t.elems h), h.fresh + 1⟩,
      ⟨h.fresh, 0, s.len + t.len, s.len + t.len⟩)

/-- The struct `Config` as it lies in memory: its two slice values. -/
structure ConfigInMemory where
  WhitelistPaths : Slice
  BlacklistPaths : Slice
deriving DecidableEq, Repr

/-- The rule lists that a configuration holds in the memory `h`. -/
def ConfigInMemory.load (h : Heap) (conf : ConfigInMemory) : Config :=
  ⟨conf.WhitelistPaths.elems h, conf.BlacklistPaths.elems h⟩

/-- The function `New` on a configuration in memory: the memory after the call
and the Go pair.  The evaluator keeps the pointer `conf`, so its rule set is
what `conf` holds once `New` has returned. -/
def New.inMemory {H : Type} (E : Engine) (_ctx : context.Context) (next : H) (h : Heap)
    (conf : ConfigInMemory) (name : String) :
    Heap × Option (Middleware H) × Option (fmt.wrapError E.Error) :=
  let r := builtin.append h conf.WhitelistPaths conf.BlacklistPaths
  match New.loop E (r.2.elems r.1) with
  | some e => (r.1, none, some e)
  | none => (r.1, some ⟨next, name, conf.load r.1⟩, none)

/-- The method `ServeHTTP` on a configuration in memory: it reads the two lists
and stores nothing, so the memory after the call is the memory before it. -/
def ServeHTTP.inMemory {H W : Type} (E : Engine) (next : H) (name : String) (h : Heap)
    (conf : ConfigInMemory) (rw : W) (req : Request) : Heap × List (Call H W) :=
  (h, ServeHTTP E ⟨next, name, conf.load h⟩ rw req)

/-- One backing array of four rules, for the paths `/a`, `/b`, `/c` and `/d`. -/
def fourRules : Heap :=
  ⟨fun i => if i = 0 then [⟨"^/a$", ""⟩, ⟨"^/b$", ""⟩, ⟨"^/c$", ""⟩, ⟨"^/d$", ""⟩] else [], 1⟩

/-- The configuration `&Config{WhitelistPaths: rules[:1], BlacklistPaths: rules[2:]}`
over the array `rules` of `fourRules`. -/
def sharedArrayConfig : ConfigInMemory := ⟨⟨0, 0, 1, 4⟩, ⟨0, 2, 2, 2⟩⟩

/-! ## Lemmas on the two loops -/

theorem MatchString_true_iff (E : Engine) (pattern s : String) :
    (regexp.MatchString E pattern s).1 = true ↔ Found E pattern s := by
  unfold regexp.MatchString Found
  cases h : E.Compile pattern with
  | error err => simp
  | ok re => simp

theorem MatchString_of_compile_error (E : Engine) (pattern s : String) (err : E.Error)
    (h : E.Compile pattern = .error err) :
    regexp.MatchString E pattern s = (false, some err) := by
  unfold regexp.MatchString
  rw [h]

theorem not_Found_of_compile_error (E : Engine) (pattern s : String) (err : E.Error)
    (h : E.Compile pattern = .error err) : ¬ Found E pattern s := by
  rintro ⟨re, hre, -⟩
  rw [h] at hre
  cases hre

theorem matchQuery_true_iff (E : Engine) (pc : PathConfig) (query : String) :
    matchQuery E pc query = true ↔
      (pc.QueryParamRegex = "" ∨ Found E pc.QueryParamRegex query) := by
  unfold matchQuery
  by_cases h : pc.QueryParamRegex = ""
  · simp [h]
  · simp [h, MatchString_true_iff]

theorem body_condition_iff (E : Engine) (pc : PathConfig) (path query : String) :
    ((regexp.MatchString E pc.PathRegex path).1 && matchQuery E pc query) = true ↔
      Matches E pc path query := by
  rw [Bool.and_eq_true, MatchString_true_iff, matchQuery_true_iff]
  rfl

theorem whitelistLoop_of_match {H W : Type} (E : Engine) (m : Middleware H) (rw : W)
    (req : Request) (path query : String) (l : List PathConfig)
    (h : ∃ pc ∈ l, Matches E pc path query) :
    ServeHTTP.whitelistLoop E m rw req path query l
      = some [Call.nextServeHTTP m.next rw req] := by
  induction l with
  | nil => simp at h
  | cons a l ih =>
    by_cases ha : Matches E a path query
    · simp [ServeHTTP.whitelistLoop, (body_condition_iff E a path query).2 ha]
    · have hc : ¬ (((regexp.MatchString E a.PathRegex path).1 && matchQuery E a query) = true) :=
        fun hc => ha ((body_condition_iff E a path query).1 hc)
      obtain ⟨pc, hpc, hm⟩ := h
      have hl : ∃ pc ∈ l, Matches E pc path query := by
        rcases List.mem_cons.1 hpc with rfl | hmem
        · exact absurd hm ha
        · exact ⟨pc, hmem, hm⟩
      simp only [ServeHTTP.whitelistLoop, hc, if_false]
      exact ih hl

theorem whitelistLoop_of_no_match {H W : Type} (E : Engine) (m : Middleware H) (rw : W)
    (req : Request) (path query : String) (l : List PathConfig)
    (h : ∀ pc ∈ l, ¬ Matches E pc path query) :
    ServeHTTP.whitelistLoop E m rw req path query l = none := by
  induction l with
  | nil => rfl
  | cons a l ih =>
    have hc : ¬ (((regexp.MatchString E a.PathRegex path).1 && matchQuery E a query) = true) :=
      fun hc => h a (List.mem_cons_self a l) ((body_condition_iff E a path query).1 hc)
    simp only [ServeHTTP.whitelistLoop, hc, if_false]
    exact ih (fun pc hpc => h pc (List.mem_cons_of_mem a hpc))

theorem blacklistLoop_of_match {H W : Type} (E : Engine) (rw : W)
    (path query : String) (l : List PathConfig)
    (h : ∃ pc ∈ l, Matches E pc path query) :
    (ServeHTTP.blacklistLoop E rw path query l : Option (List (Call H W)))
      = some [Call.httpError rw "Forbidden" http.StatusForbidden] := by
  induction l with
  | nil => simp at h
  | cons a l ih =>
    by_cases ha : Matches E a path query
    · simp [ServeHTTP.blacklistLoop, (body_condition_iff E a path query).2 ha]
    · have hc : ¬ (((regexp.MatchString E a.PathRegex path).1 && matchQuery E a query) = true) :=
        fun hc => ha ((body_condition_iff E a path query).1 hc)
      obtain ⟨pc, hpc, hm⟩ := h
      have hl : ∃ pc ∈ l, Matches E pc path query := by
        rcases List.mem_cons.1 hpc with rfl | hmem
        · exact absurd hm ha
        · exact ⟨pc, hmem, hm⟩
      simp only [ServeHTTP.blacklistLoop, hc, if_false]
      exact ih hl

theorem blacklistLoop_of_no_match {H W : Type} (E : Engine) (rw : W)
    (path query : String) (l : List PathConfig)
    (h : ∀ pc ∈ l, ¬ Matches E pc path query) :
    (ServeHTTP.blacklistLoop E rw path query l : Option (List (Call H W))) = none := by
  induction l with
  | nil => rfl
  | cons a l ih =>
    have hc : ¬ (((regexp.MatchString E a.PathRegex path).1 && matchQuery E a query) = true) :=
      fun hc => h a (List.mem_cons_self a l) ((body_condition_iff E a path query).1 hc)
    simp only [ServeHTTP.blacklistLoop, hc, if_false]
    exact ih (fun pc hpc => h pc (List.mem_cons_of_mem a hpc))

/-- The three ways through `ServeHTTP`. -/
theorem ServeHTTP_of_whitelist_match {H W : Type} (E : Engine) (m : Middleware H) (rw : W)
    (req : Request)
    (h : ∃ pc ∈ m.config.WhitelistPaths, Matches E pc req.URL.Path req.URL.RawQuery) :
    ServeHTTP E m rw req = [Call.nextServeHTTP m.next rw req] := by
  simp only [ServeHTTP, whitelistLoop_of_match E m rw req _ _ _ h]

theorem ServeHTTP_of_blacklist_match {H W : Type} (E : Engine) (m : Middleware H) (rw : W)
    (req : Request)
    (hw : ∀ pc ∈ m.config.WhitelistPaths, ¬ Matches E pc req.URL.Path req.URL.RawQuery)
    (hb : ∃ pc ∈ m.config.BlacklistPaths, Matches E pc req.URL.Path req.URL.RawQuery) :
    ServeHTTP E m rw req = [Call.httpError rw "Forbidden" http.StatusForbidden] := by
  simp only [ServeHTTP, whitelistLoop_of_no_match E m rw req _ _ _ hw,
    blacklistLoop_of_match E rw _ _ _ hb]

theorem ServeHTTP_of_no_match {H W : Type} (E : Engine) (m : Middleware H) (rw : W)
    (req : Request)
    (hw : ∀ pc ∈ m.config.WhitelistPaths, ¬ Matches E pc req.URL.Path req.URL.RawQuery)
    (hb : ∀ pc ∈ m.config.BlacklistPaths, ¬ Matches E pc req.URL.Path req.URL.RawQuery) :
    ServeHTTP E m rw req = [Call.nextServeHTTP m.next rw req] := by
  simp only [ServeHTTP, whitelistLoop_of_no_match E m rw req _ _ _ hw,
    blacklistLoop_of_no_match E rw _ _ _ hb]

/-! ## The decision: whitelist first, then blacklist, then allow -/

/-- C1. Whitelist overrides blacklist: when some rule of the whitelist, at
whatever place in it, has its path pattern found in the path and its query
pattern empty or found in the raw query, `ServeHTTP` forwards the request to
`next` and does nothing else, whatever the blacklist is. -/
theorem whitelist_overrides_blacklist {H W : Type} (E : Engine) (next : H) (name : String)
    (whitelist blacklist : List PathConfig) (rw : W) (req : Request)
    (h : ∃ pc ∈ whitelist, Found E pc.PathRegex req.URL.Path ∧
      (pc.QueryParamRegex = "" ∨ Found E pc.QueryParamRegex req.URL.RawQuery)) :
    ServeHTTP E ⟨next, name, ⟨whitelist, blacklist⟩⟩ rw req
      = [Call.nextServeHTTP next rw req] :=
  ServeHTTP_of_whitelist_match E ⟨next, name, ⟨whitelist, blacklist⟩⟩ rw req h

/-- The test "matching rules in both whitelistPaths and blacklistPaths". -/
theorem whitelist_overrides_blacklist_witness :
    (∃ pc ∈ [(⟨"^/test$", "(page)=.*"⟩ : PathConfig)],
      Found RE2.engine pc.PathRegex (testRequest "/test" "page=1&category=latest").URL.Path ∧
      (pc.QueryParamRegex = "" ∨ Found RE2.engine pc.QueryParamRegex
        (testRequest "/test" "page=1&category=latest").URL.RawQuery)) ∧
    ServeHTTP RE2.engine
        ⟨"next", "requestpolicy", ⟨[⟨"^/test$", "(page)=.*"⟩], [⟨"^/test$", "(category)=.*"⟩]⟩⟩
        (7 : Nat) (testRequest "/test" "page=1&category=latest")
      = [Call.nextServeHTTP "next" 7 (testRequest "/test" "page=1&category=latest")] :=
  ⟨by decide, whitelist_overrides_blacklist RE2.engine "next" "requestpolicy"
    [⟨"^/test$", "(page)=.*"⟩] [⟨"^/test$", "(category)=.*"⟩] 7
    (testRequest "/test" "page=1&category=latest") (by decide)⟩

/-- C2. Blacklist denies: when no rule of the whitelist matches the request and
some rule of the blacklist does, `ServeHTTP` answers with `http.Error(rw,
"Forbidden", 403)` and nothing else.  A whitelist rule whose path pattern is
found but whose non-empty query pattern is not found does not match. -/
theorem blacklist_denies {H W : Type} (E : Engine) (next : H) (name : String)
    (whitelist blacklist : List PathConfig) (rw : W) (req : Request)
    (hw : ∀ pc ∈ whitelist, ¬ (Found E pc.PathRegex req.URL.Path ∧
      (pc.QueryParamRegex = "" ∨ Found E pc.QueryParamRegex req.URL.RawQuery)))
    (hb : ∃ pc ∈ blacklist, Found E pc.PathRegex req.URL.Path ∧
      (pc.QueryParamRegex = "" ∨ Found E pc.QueryParamRegex req.URL.RawQuery)) :
    ServeHTTP E ⟨next, name, ⟨whitelist, blacklist⟩⟩ rw req
      = [Call.httpError rw "Forbidden" 403] :=
  ServeHTTP_of_blacklist_match E ⟨next, name, ⟨whitelist, blacklist⟩⟩ rw req hw hb

/-- The second test "forbidden status with query param": the path pattern of the
whitelist rule is found, its query pattern is not. -/
theorem blacklist_denies_witness :
    (Found RE2.engine "^/test$" "/test" ∧ ¬ Found RE2.engine "(page)=.*" "category=1&KJLhklhddopi") ∧
    ServeHTTP RE2.engine
        ⟨"next", "requestpolicy",
          ⟨[⟨"^/test$", "(page)=.*"⟩], [⟨"^/test$", "(category|limit|sort|page)=.*"⟩]⟩⟩
        (7 : Nat) (testRequest "/test" "category=1&KJLhklhddopi")
      = [Call.httpError 7 "Forbidden" 403] :=
  ⟨by decide, blacklist_denies RE2.engine "next" "requestpolicy"
    [⟨"^/test$", "(page)=.*"⟩] [⟨"^/test$", "(category|limit|sort|page)=.*"⟩] 7
    (testRequest "/test" "category=1&KJLhklhddopi") (by decide) (by decide)⟩

/-- C3. Default allow: when no rule of the whitelist and no rule of the blacklist
matches the request, `ServeHTTP` forwards it to `next`. -/
theorem default_allow {H W : Type} (E : Engine) (next : H) (name : String)
    (whitelist blacklist : List PathConfig) (rw : W) (req : Request)
    (hw : ∀ pc ∈ whitelist, ¬ Matches E pc req.URL.Path req.URL.RawQuery)
    (hb : ∀ pc ∈ blacklist, ¬ Matches E pc req.URL.Path req.URL.RawQuery) :
    ServeHTTP E ⟨next, name, ⟨whitelist, blacklist⟩⟩ rw req
      = [Call.nextServeHTTP next rw req] :=
  ServeHTTP_of_no_match E ⟨next, name, ⟨whitelist, blacklist⟩⟩ rw req hw hb

/-- The test "no matching rules in whitelistPaths and blacklistPaths". -/
theorem default_allow_witness :
    ((∀ pc ∈ [(⟨"^/test$", "(page)=.*"⟩ : PathConfig)],
        ¬ Matches RE2.engine pc "/other" "limit=10") ∧
      (∀ pc ∈ [(⟨"^/hello$", "(category)=.*"⟩ : PathConfig)],
        ¬ Matches RE2.engine pc "/other" "limit=10")) ∧
    ServeHTTP RE2.engine
        ⟨"next", "requestpolicy", ⟨[⟨"^/test$", "(page)=.*"⟩], [⟨"^/hello$", "(category)=.*"⟩]⟩⟩
        (7 : Nat) (testRequest "/other" "limit=10")
      = [Call.nextServeHTTP "next" 7 (testRequest "/other" "limit=10")] :=
  ⟨⟨by decide, by decide⟩, default_allow RE2.engine "next" "requestpolicy"
    [⟨"^/test$", "(page)=.*"⟩] [⟨"^/hello$", "(category)=.*"⟩] 7
    (testRequest "/other" "limit=10") (by decide) (by decide)⟩

/-! ## Construction -/

theorem not_Valid_iff (E : Engine) (pattern : String) :
    ¬ Valid E pattern ↔ ∃ err, E.Compile pattern = .error err := by
  unfold Valid
  cases h : E.Compile pattern with
  | error err => simp
  | ok re => simp

theorem New_loop_eq_none_iff (E : Engine) (l : List PathConfig) :
    New.loop E l = none ↔ ∀ pc ∈ l, Valid E pc.PathRegex ∧ Valid E pc.QueryParamRegex := by
  induction l with
  | nil => simp [New.loop]
  | cons a l ih =>
    unfold New.loop Valid
    cases hp : E.Compile a.PathRegex with
    | error err => simp [hp]
    | ok re =>
      cases hq : E.Compile a.QueryParamRegex with
      | error err => simp [hp, hq]
      | ok re' =>
        simp only [ih, List.mem_cons, forall_eq_or_imp, hp, hq]
        simp [Valid]

theorem New_loop_eq_some (E : Engine) (l : List PathConfig) (e : fmt.wrapError E.Error)
    (h : New.loop E l = some e) :
    ∃ pc ∈ l, E.Compile pc.PathRegex = .error e.err ∨
      E.Compile pc.QueryParamRegex = .error e.err := by
  induction l with
  | nil => simp [New.loop] at h
  | cons a l ih =>
    unfold New.loop at h
    cases hp : E.Compile a.PathRegex with
    | error err =>
      rw [hp] at h
      simp only [Option.some.injEq] at h
      subst h
      exact ⟨a, List.mem_cons_self a l, Or.inl hp⟩
    | ok re =>
      rw [hp] at h
      cases hq : E.Compile a.QueryParamRegex with
      | error err =>
        rw [hq] at h
        simp only [Option.some.injEq] at h
        subst h
        exact ⟨a, List.mem_cons_self a l, Or.inr hq⟩
      | ok re' =>
        rw [hq] at h
        obtain ⟨pc, hpc, hc⟩ := ih h
        exact ⟨pc, List.mem_cons_of_mem a hpc, hc⟩

/-- C4. `New` fails exactly when some pattern (path or query) of some rule of the
whitelist or of the blacklist does not compile; when it fails the handler is nil
and the error wraps the compilation error of one of these patterns; when every
pattern compiles it returns the handler holding `next`, `name` and `conf`, and a
nil error. -/
theorem New_fails_iff_invalid_pattern {H : Type} (E : Engine) (ctx : context.Context)
    (next : H) (conf : Config) (name : String) :
    ((New E ctx next conf name).2 ≠ none ↔
      ∃ pc, (pc ∈ conf.WhitelistPaths ∨ pc ∈ conf.BlacklistPaths) ∧
        (¬ Valid E pc.PathRegex ∨ ¬ Valid E pc.QueryParamRegex)) ∧
    (∀ e, (New E ctx next conf name).2 = some e →
      (New E ctx next conf name).1 = none ∧
      ∃ pc, (pc ∈ conf.WhitelistPaths ∨ pc ∈ conf.BlacklistPaths) ∧
        (E.Compile pc.PathRegex = .error e.err ∨ E.Compile pc.QueryParamRegex = .error e.err)) ∧
    ((∀ pc, pc ∈ conf.WhitelistPaths ∨ pc ∈ conf.BlacklistPaths →
        Valid E pc.PathRegex ∧ Valid E pc.QueryParamRegex) →
      New E ctx next conf name = (some ⟨next, name, conf⟩, none)) := by
  refine ⟨?_, ?_, ?_⟩
  · unfold New
    cases h : New.loop E (conf.WhitelistPaths ++ conf.BlacklistPaths) with
    | none =>
      have hall := (New_loop_eq_none_iff E _).1 h
      simp only [ne_eq, not_true_eq_false, false_iff, not_exists, not_and, not_or, not_not]
      intro pc hpc
      exact hall pc (List.mem_append.2 hpc)
    | some e =>
      simp only [ne_eq, reduceCtorEq, not_false_eq_true, true_iff]
      obtain ⟨pc, hpc, hc⟩ := New_loop_eq_some E _ e h
      refine ⟨pc, List.mem_append.1 hpc, ?_⟩
      rcases hc with hc | hc
      · exact Or.inl ((not_Valid_iff E _).2 ⟨_, hc⟩)
      · exact Or.inr ((not_Valid_iff E _).2 ⟨_, hc⟩)
  · intro e he
    unfold New at he ⊢
    cases h : New.loop E (conf.WhitelistPaths ++ conf.BlacklistPaths) with
    | none => rw [h] at he; simp at he
    | some e' =>
      rw [h] at he
      simp only [Option.some.injEq] at he
      subst he
      obtain ⟨pc, hpc, hc⟩ := New_loop_eq_some E _ e' h
      exact ⟨rfl, pc, List.mem_append.1 hpc, hc⟩
  · intro hall
    unfold New
    rw [(New_loop_eq_none_iff E _).2 (fun pc hpc => hall pc (List.mem_append.1 hpc))]

/-- The two cases of `TestNew`: the blacklist rule `{"*", "*"}` makes `New` fail,
the whitelist rule `{"^/$", "(category)=oldest*"}` lets it succeed. -/
theorem New_fails_iff_invalid_pattern_witness :
    (New RE2.engine () "next" ⟨[], [⟨"*", "*"⟩]⟩ "requestpolicy").2 ≠ none ∧
    New RE2.engine () "next" ⟨[⟨"^/$", "(category)=oldest*"⟩], []⟩ "requestpolicy"
      = (some ⟨"next", "requestpolicy", ⟨[⟨"^/$", "(category)=oldest*"⟩], []⟩⟩, none) :=
  ⟨(New_fails_iff_invalid_pattern RE2.engine () "next" ⟨[], [⟨"*", "*"⟩]⟩ "requestpolicy").1.2
      ⟨⟨"*", "*"⟩, Or.inr (by decide), Or.inl (by decide)⟩,
   (New_fails_iff_invalid_pattern RE2.engine () "next"
      ⟨[⟨"^/$", "(category)=oldest*"⟩], []⟩ "requestpolicy").2.2
      (fun pc hpc => by
        have hmem : pc = ⟨"^/$", "(category)=oldest*"⟩ := by
          rcases hpc with h | h
          · exact List.mem_singleton.1 h
          · exact absurd h (List.not_mem_nil pc)
        rw [hmem]
        decide)⟩

/-! ## The effects of a decision -/

/-- C5. On Deny (no whitelist rule matches, some blacklist rule does) the one
thing `ServeHTTP` does is the call `http.Error(rw, "Forbidden", 403)` on the
response writer it was given: the downstream handler is called zero times. -/
theorem deny_writes_forbidden_and_skips_next {H W : Type} (E : Engine) (m : Middleware H)
    (rw : W) (req : Request)
    (hdeny : (∀ pc ∈ m.config.WhitelistPaths, ¬ Matches E pc req.URL.Path req.URL.RawQuery) ∧
      ∃ pc ∈ m.config.BlacklistPaths, Matches E pc req.URL.Path req.URL.RawQuery) :
    ServeHTTP E m rw req = [Call.httpError rw "Forbidden" 403] ∧
    http.StatusForbidden = 403 ∧
    nextCalls (ServeHTTP E m rw req) = 0 ∧
    writes (ServeHTTP E m rw req) = 1 ∧
    ∀ h w r, Call.nextServeHTTP h w r ∉ ServeHTTP E m rw req := by
  have ht := ServeHTTP_of_blacklist_match E m rw req hdeny.1 hdeny.2
  rw [ht]
  refine ⟨rfl, rfl, ?_, ?_, ?_⟩
  · simp [nextCalls]
  · simp [writes]
  · intro h w r hmem
    simp at hmem

/-- The test "forbidden status with path". -/
theorem deny_writes_forbidden_and_skips_next_witness :
    ((∀ pc ∈ ([] : List PathConfig), ¬ Matches RE2.engine pc "/test" "") ∧
      ∃ pc ∈ [(⟨"/test", ""⟩ : PathConfig)], Matches RE2.engine pc "/test" "") ∧
    ServeHTTP RE2.engine ⟨"next", "requestpolicy", ⟨[], [⟨"/test", ""⟩]⟩⟩ (7 : Nat)
        (testRequest "/test" "") = [Call.httpError 7 "Forbidden" 403] ∧
    nextCalls (ServeHTTP RE2.engine ⟨"next", "requestpolicy", ⟨[], [⟨"/test", ""⟩]⟩⟩ (7 : Nat)
        (testRequest "/test" "")) = 0 :=
  have h := deny_writes_forbidden_and_skips_next RE2.engine
    ⟨"next", "requestpolicy", ⟨[], [⟨"/test", ""⟩]⟩⟩ (7 : Nat) (testRequest "/test" "")
    (by decide)
  ⟨by decide, h.1, h.2.2.1⟩

/-- C6. On Allow (some whitelist rule matches, or no blacklist rule does) the one
thing `ServeHTTP` does is one call `next.ServeHTTP(rw, req)` with the response
writer and the request it was given: it writes nothing.  And for no request at
all does it both call `next` and write: it does exactly one of the two, once. -/
theorem allow_forwards_once_and_writes_nothing {H W : Type} (E : Engine) (m : Middleware H)
    (rw : W) (req : Request) :
    (((∃ pc ∈ m.config.WhitelistPaths, Matches E pc req.URL.Path req.URL.RawQuery) ∨
        ∀ pc ∈ m.config.BlacklistPaths, ¬ Matches E pc req.URL.Path req.URL.RawQuery) →
      ServeHTTP E m rw req = [Call.nextServeHTTP m.next rw req] ∧
      nextCalls (ServeHTTP E m rw req) = 1 ∧
      writes (ServeHTTP E m rw req) = 0) ∧
    ¬ (0 < nextCalls (ServeHTTP E m rw req) ∧ 0 < writes (ServeHTTP E m rw req)) ∧
    nextCalls (ServeHTTP E m rw req) + writes (ServeHTTP E m rw req) = 1 := by
  have hallow : ((∃ pc ∈ m.config.WhitelistPaths, Matches E pc req.URL.Path req.URL.RawQuery) ∨
        ∀ pc ∈ m.config.BlacklistPaths, ¬ Matches E pc req.URL.Path req.URL.RawQuery) →
      ServeHTTP E m rw req = [Call.nextServeHTTP m.next rw req] := by
    intro h
    by_cases hw : ∃ pc ∈ m.config.WhitelistPaths, Matches E pc req.URL.Path req.URL.RawQuery
    · exact ServeHTTP_of_whitelist_match E m rw req hw
    · rcases h with h | h
      · exact absurd h hw
      · exact ServeHTTP_of_no_match E m rw req (fun pc hpc hm => hw ⟨pc, hpc, hm⟩) h
  have hone : nextCalls (ServeHTTP E m rw req) + writes (ServeHTTP E m rw req) = 1 := by
    by_cases ha : (∃ pc ∈ m.config.WhitelistPaths, Matches E pc req.URL.Path req.URL.RawQuery) ∨
        ∀ pc ∈ m.config.BlacklistPaths, ¬ Matches E pc req.URL.Path req.URL.RawQuery
    · rw [hallow ha]
      simp [nextCalls, writes]
    · simp only [not_or, not_exists, not_and, not_forall, not_not] at ha
      obtain ⟨hw, pc, hpc, hm⟩ := ha
      rw [ServeHTTP_of_blacklist_match E m rw req hw ⟨pc, hpc, hm⟩]
      simp [nextCalls, writes]
  refine ⟨?_, ?_, hone⟩
  · intro h
    rw [hallow h]
    simp [nextCalls, writes]
  · omega

/-- The test "ok status with no matching rules" for Allow, and the test
"forbidden status with path" for a request that is not allowed. -/
theorem allow_forwards_once_and_writes_nothing_witness :
    (ServeHTTP RE2.engine
        ⟨"next", "requestpolicy", ⟨[⟨"^/test$", "(page)=.*"⟩], [⟨"^/hello$", "(category)=.*"⟩]⟩⟩
        (7 : Nat) (testRequest "/other" "limit=10")
      = [Call.nextServeHTTP "next" 7 (testRequest "/other" "limit=10")]) ∧
    nextCalls (ServeHTTP RE2.engine ⟨"next", "requestpolicy", ⟨[], [⟨"/test", ""⟩]⟩⟩ (7 : Nat)
        (testRequest "/test" "")) +
      writes (ServeHTTP RE2.engine ⟨"next", "requestpolicy", ⟨[], [⟨"/test", ""⟩]⟩⟩ (7 : Nat)
        (testRequest "/test" "")) = 1 :=
  ⟨((allow_forwards_once_and_writes_nothing RE2.engine
      ⟨"next", "requestpolicy", ⟨[⟨"^/test$", "(page)=.*"⟩], [⟨"^/hello$", "(category)=.*"⟩]⟩⟩
      (7 : Nat) (testRequest "/other" "limit=10")).1 (Or.inr (by decide))).1,
   (allow_forwards_once_and_writes_nothing RE2.engine
      ⟨"next", "requestpolicy", ⟨[], [⟨"/test", ""⟩]⟩⟩ (7 : Nat) (testRequest "/test" "")).2.2⟩

/-! ## Facts about the fragment -/

theorem agreesOn_engine (pattern : String) : RE2.engine.agreesOn pattern := by
  unfold Engine.agreesOn
  cases h : RE2.Parse pattern with
  | ok re => exact ⟨re, h, fun _ => rfl⟩
  | error e =>
    by_cases hc : e.Code = RE2.ErrorCode.Unmodelled
    · simp [hc]
    · simp only [hc, if_false]
      exact ⟨e, h⟩

theorem Found_of_agreesOn (E : Engine) (pattern s : String) (hE : E.agreesOn pattern)
    (h : Found RE2.engine pattern s) : Found E pattern s := by
  obtain ⟨re, hre, hm⟩ := h
  have hp : RE2.Parse pattern = .ok re := hre
  unfold Engine.agreesOn at hE
  rw [hp] at hE
  obtain ⟨re', hc, hs⟩ := hE
  exact ⟨re', hc, (hs s).trans hm⟩

theorem not_Valid_of_agreesOn (E : Engine) (pattern : String) (hE : E.agreesOn pattern)
    (e : RE2.Error) (hp : RE2.Parse pattern = .error e)
    (hc : e.Code ≠ RE2.ErrorCode.Unmodelled) : ¬ Valid E pattern := by
  unfold Engine.agreesOn at hE
  rw [hp] at hE
  simp only [hc, if_false] at hE
  exact (not_Valid_iff E pattern).2 hE

theorem RE2.searchFrom_append (re : RE2.Regexp) (n : Nat) (a t : List Char)
    (h : (re.matchAt n t).isEmpty = false) : re.searchFrom n (a ++ t) = true := by
  induction a with
  | nil =>
    cases t with
    | nil => simp [RE2.Regexp.searchFrom, h]
    | cons c t => simp [RE2.Regexp.searchFrom, h]
  | cons c a ih => simp [RE2.Regexp.searchFrom, ih]

theorem RE2.Found_empty_pattern (s : String) : Found RE2.engine "" s := by
  refine ⟨RE2.Regexp.emptyMatch, rfl, ?_⟩
  have h := RE2.searchFrom_append RE2.Regexp.emptyMatch s.length s.data [] rfl
  rw [List.append_nil] at h
  exact h

theorem RE2.Found_slash_test (pre post : String) :
    Found RE2.engine "/test" (pre ++ "/test" ++ post) := by
  refine ⟨_, rfl, ?_⟩
  show RE2.Regexp.searchFrom _ _ (pre ++ "/test" ++ post).data = true
  rw [String.data_append, String.data_append, List.append_assoc]
  apply RE2.searchFrom_append
  show (RE2.Regexp.matchAt _ _ (['/', 't', 'e', 's', 't'] ++ post.data)).isEmpty = false
  simp [RE2.Regexp.matchAt, List.flatMap]

theorem RE2.flatMap_congr_mem {α β : Type} (l : List α) (f g : α → List β)
    (h : ∀ a ∈ l, f a = g a) : l.flatMap f = l.flatMap g := by
  induction l with
  | nil => rfl
  | cons a l ih =>
    simp only [List.flatMap_cons]
    rw [h a (List.mem_cons_self a l), ih (fun b hb => h b (List.mem_cons_of_mem a hb))]

/-- The fuel of `starLoop` never runs out: any two amounts of fuel that are at
least the length of the text give the same remainders. -/
theorem RE2.starLoop_fuel (step : List Char → List (List Char)) (fuel : Nat) :
    ∀ (fuel' : Nat) (s : List Char), s.length ≤ fuel → s.length ≤ fuel' →
      RE2.starLoop step fuel s = RE2.starLoop step fuel' s := by
  induction fuel with
  | zero =>
    intro fuel' s h _
    have hs : s.length = 0 := Nat.le_zero.1 h
    cases fuel' with
    | zero => rfl
    | succ k => simp [RE2.starLoop, hs]
  | succ k ih =>
    intro fuel' s h h'
    cases fuel' with
    | zero =>
      have hs : s.length = 0 := Nat.le_zero.1 h'
      simp [RE2.starLoop, hs]
    | succ k' =>
      simp only [RE2.starLoop]
      congr 1
      apply RE2.flatMap_congr_mem
      intro s' hs'
      have hlt : s'.length < s.length := by
        have := (List.mem_filter.1 hs').2
        simpa using this
      exact ih k' s' (by omega) (by omega)

/-! ## A rule that does not match is passed over -/

theorem whitelistLoop_cons {H W : Type} (E : Engine) (m : Middleware H) (rw : W)
    (req : Request) (path query : String) (a : PathConfig) (l : List PathConfig) :
    ServeHTTP.whitelistLoop E m rw req path query (a :: l)
      = if ((regexp.MatchString E a.PathRegex path).1 && matchQuery E a query) = true then
          some [Call.nextServeHTTP m.next rw req]
        else ServeHTTP.whitelistLoop E m rw req path query l := rfl

theorem blacklistLoop_cons {H W : Type} (E : Engine) (rw : W)
    (path query : String) (a : PathConfig) (l : List PathConfig) :
    (ServeHTTP.blacklistLoop E rw path query (a :: l) : Option (List (Call H W)))
      = if ((regexp.MatchString E a.PathRegex path).1 && matchQuery E a query) = true then
          some [Call.httpError rw "Forbidden" http.StatusForbidden]
        else ServeHTTP.blacklistLoop E rw path query l := rfl

theorem whitelistLoop_congr_next {H W : Type} (E : Engine) (m m' : Middleware H) (rw : W)
    (req : Request) (path query : String) (l : List PathConfig) (hm : m.next = m'.next) :
    ServeHTTP.whitelistLoop E m rw req path query l
      = ServeHTTP.whitelistLoop E m' rw req path query l := by
  induction l with
  | nil => rfl
  | cons a l ih => rw [whitelistLoop_cons, whitelistLoop_cons, ih, hm]

theorem whitelistLoop_remove {H W : Type} (E : Engine) (m : Middleware H) (rw : W)
    (req : Request) (path query : String) (pc : PathConfig) (l₁ l₂ : List PathConfig)
    (h : ¬ Matches E pc path query) :
    ServeHTTP.whitelistLoop E m rw req path query (l₁ ++ pc :: l₂)
      = ServeHTTP.whitelistLoop E m rw req path query (l₁ ++ l₂) := by
  have hc : ¬ (((regexp.MatchString E pc.PathRegex path).1 && matchQuery E pc query) = true) :=
    fun hc => h ((body_condition_iff E pc path query).1 hc)
  induction l₁ with
  | nil => rw [List.nil_append, List.nil_append, whitelistLoop_cons, if_neg hc]
  | cons a l ih => rw [List.cons_append, List.cons_append, whitelistLoop_cons,
      whitelistLoop_cons, ih]

theorem blacklistLoop_remove {H W : Type} (E : Engine) (rw : W)
    (path query : String) (pc : PathConfig) (l₁ l₂ : List PathConfig)
    (h : ¬ Matches E pc path query) :
    (ServeHTTP.blacklistLoop E rw path query (l₁ ++ pc :: l₂) : Option (List (Call H W)))
      = ServeHTTP.blacklistLoop E rw path query (l₁ ++ l₂) := by
  have hc : ¬ (((regexp.MatchString E pc.PathRegex path).1 && matchQuery E pc query) = true) :=
    fun hc => h ((body_condition_iff E pc path query).1 hc)
  induction l₁ with
  | nil => rw [List.nil_append, List.nil_append, blacklistLoop_cons, if_neg hc]
  | cons a l ih => rw [List.cons_append, List.cons_append, blacklistLoop_cons,
      blacklistLoop_cons, ih]

theorem not_Matches_of_invalid (E : Engine) (pc : PathConfig)
    (hbad : ¬ Valid E pc.PathRegex ∨ (pc.QueryParamRegex ≠ "" ∧ ¬ Valid E pc.QueryParamRegex))
    (path query : String) : ¬ Matches E pc path query := by
  rintro ⟨⟨re, hre, -⟩, hq⟩
  rcases hbad with hbad | ⟨hne, hbad⟩
  · exact hbad ⟨re, hre⟩
  · rcases hq with hq | ⟨re', hre', -⟩
    · exact hne hq
    · exact hbad ⟨re', hre'⟩

theorem ServeHTTP_allow_or_deny {H W : Type} (E : Engine) (m : Middleware H) (rw : W)
    (req : Request) :
    ServeHTTP E m rw req = [Call.nextServeHTTP m.next rw req] ∨
      ServeHTTP E m rw req = [Call.httpError rw "Forbidden" 403] := by
  by_cases hw : ∃ pc ∈ m.config.WhitelistPaths, Matches E pc req.URL.Path req.URL.RawQuery
  · exact Or.inl (ServeHTTP_of_whitelist_match E m rw req hw)
  · have hw' : ∀ pc ∈ m.config.WhitelistPaths, ¬ Matches E pc req.URL.Path req.URL.RawQuery :=
      fun pc hpc hm => hw ⟨pc, hpc, hm⟩
    by_cases hb : ∃ pc ∈ m.config.BlacklistPaths, Matches E pc req.URL.Path req.URL.RawQuery
    · exact Or.inr (ServeHTTP_of_blacklist_match E m rw req hw' hb)
    · exact Or.inl (ServeHTTP_of_no_match E m rw req hw' (fun pc hpc hm => hb ⟨pc, hpc, hm⟩))

/-! ## Patterns -/

/-- C7. The empty path pattern is found in every path (for an engine that treats
the pattern `""` the way the fragment does).  So a whitelist that holds the rule
`{PathRegex: "", QueryParamRegex: ""}` makes `ServeHTTP` forward every request,
whatever the blacklist is, and with an empty whitelist a blacklist that holds
this rule makes `ServeHTTP` deny every request. -/
theorem empty_path_pattern_matches_every_path {H W : Type} (E : Engine) (hE : E.agreesOn "")
    (next : H) (name : String) (whitelist blacklist : List PathConfig) (rw : W) (req : Request) :
    Found E "" req.URL.Path ∧
    ((⟨"", ""⟩ : PathConfig) ∈ whitelist →
      ServeHTTP E ⟨next, name, ⟨whitelist, blacklist⟩⟩ rw req
        = [Call.nextServeHTTP next rw req]) ∧
    ((⟨"", ""⟩ : PathConfig) ∈ blacklist →
      ServeHTTP E ⟨next, name, ⟨[], blacklist⟩⟩ rw req
        = [Call.httpError rw "Forbidden" 403]) := by
  have hf : Found E "" req.URL.Path :=
    Found_of_agreesOn E "" req.URL.Path hE (RE2.Found_empty_pattern req.URL.Path)
  have hm : Matches E ⟨"", ""⟩ req.URL.Path req.URL.RawQuery := ⟨hf, Or.inl rfl⟩
  refine ⟨hf, ?_, ?_⟩
  · intro hmem
    exact ServeHTTP_of_whitelist_match E ⟨next, name, ⟨whitelist, blacklist⟩⟩ rw req
      ⟨_, hmem, hm⟩
  · intro hmem
    exact ServeHTTP_of_blacklist_match E ⟨next, name, ⟨[], blacklist⟩⟩ rw req
      (fun pc hpc => absurd hpc (List.not_mem_nil pc)) ⟨_, hmem, hm⟩

/-- Scenario E of the specification (the test "empty regex in whitelistPaths"),
with a blacklist that would deny the request. -/
theorem empty_path_pattern_matches_every_path_witness :
    RE2.engine.agreesOn "" ∧
    ServeHTTP RE2.engine ⟨"next", "requestpolicy", ⟨[⟨"", ""⟩], [⟨"/test", ""⟩]⟩⟩ (7 : Nat)
        (testRequest "/test" "page=1")
      = [Call.nextServeHTTP "next" 7 (testRequest "/test" "page=1")] ∧
    ServeHTTP RE2.engine ⟨"next", "requestpolicy", ⟨[], [⟨"", ""⟩]⟩⟩ (7 : Nat)
        (testRequest "/test" "page=1")
      = [Call.httpError 7 "Forbidden" 403] :=
  ⟨agreesOn_engine "",
   (empty_path_pattern_matches_every_path RE2.engine (agreesOn_engine "") "next" "requestpolicy"
      [⟨"", ""⟩] [⟨"/test", ""⟩] (7 : Nat) (testRequest "/test" "page=1")).2.1 (by decide),
   (empty_path_pattern_matches_every_path RE2.engine (agreesOn_engine "") "next" "requestpolicy"
      [] [⟨"", ""⟩] (7 : Nat) (testRequest "/test" "page=1")).2.2 (by decide)⟩

/-- C8. Path matching is an unanchored search: with an empty whitelist and the
blacklist `[{PathRegex: "/test", QueryParamRegex: ""}]`, every request whose path
contains `/test` is denied, whatever its raw query is (for an engine that treats
the pattern `/test` the way the fragment does); the paths `/test` and
`/test/more` are two of them. -/
theorem path_match_is_unanchored_search {H W : Type} (E : Engine) (hE : E.agreesOn "/test")
    (next : H) (name : String) (rw : W) (req : Request)
    (hpath : (∃ pre post : String, req.URL.Path = pre ++ "/test" ++ post) ∨
      req.URL.Path = "/test" ∨ req.URL.Path = "/test/more") :
    ServeHTTP E ⟨next, name, ⟨[], [⟨"/test", ""⟩]⟩⟩ rw req
      = [Call.httpError rw "Forbidden" 403] := by
  have hsub : ∃ pre post : String, req.URL.Path = pre ++ "/test" ++ post := by
    rcases hpath with h | h | h
    · exact h
    · exact ⟨"", "", by rw [h]; decide⟩
    · exact ⟨"", "/more", by rw [h]; decide⟩
  obtain ⟨pre, post, hp⟩ := hsub
  have hf : Found E "/test" req.URL.Path := by
    rw [hp]
    exact Found_of_agreesOn E "/test" _ hE (RE2.Found_slash_test pre post)
  exact ServeHTTP_of_blacklist_match E ⟨next, name, ⟨[], [⟨"/test", ""⟩]⟩⟩ rw req
    (fun pc hpc => absurd hpc (List.not_mem_nil pc))
    ⟨⟨"/test", ""⟩, List.mem_singleton.2 rfl, hf, Or.inl rfl⟩

/-- The path `/api/test/more`, with a raw query. -/
theorem path_match_is_unanchored_search_witness :
    (RE2.engine.agreesOn "/test" ∧
      ((∃ pre post : String,
          (testRequest "/api/test/more" "page=1").URL.Path = pre ++ "/test" ++ post) ∨
        (testRequest "/api/test/more" "page=1").URL.Path = "/test" ∨
        (testRequest "/api/test/more" "page=1").URL.Path = "/test/more")) ∧
    ServeHTTP RE2.engine ⟨"next", "requestpolicy", ⟨[], [⟨"/test", ""⟩]⟩⟩ (7 : Nat)
        (testRequest "/api/test/more" "page=1")
      = [Call.httpError 7 "Forbidden" 403] :=
  ⟨⟨agreesOn_engine "/test", Or.inl ⟨"/api", "/more", by decide⟩⟩,
   path_match_is_unanchored_search RE2.engine (agreesOn_engine "/test") "next" "requestpolicy"
     (7 : Nat) (testRequest "/api/test/more" "page=1") (Or.inl ⟨"/api", "/more", by decide⟩)⟩

/-- C9. `matchQuery` is true for every query string when the query pattern of
the rule is empty; otherwise it is true exactly when the pattern is found in
the raw query string, which is searched as it stands; and (for an engine that
treats this pattern the way the fragment does) the pattern
`(category|limit|sort|page)=.*` is found in `page=1&KJLhklhddopi`. -/
theorem matchQuery_searches_raw_query (E : Engine)
    (hE : E.agreesOn "(category|limit|sort|page)=.*") :
    (∀ (pc : PathConfig) (query : String), pc.QueryParamRegex = "" →
      matchQuery E pc query = true) ∧
    (∀ path : String, matchQuery E ⟨path, ""⟩ "" = true) ∧
    (∀ (pc : PathConfig) (query : String), pc.QueryParamRegex ≠ "" →
      (matchQuery E pc query = true ↔ Found E pc.QueryParamRegex query)) ∧
    (∀ (pc : PathConfig) (query : String), pc.QueryParamRegex ≠ "" →
      matchQuery E pc query = (regexp.MatchString E pc.QueryParamRegex query).1) ∧
    Found E "(category|limit|sort|page)=.*" "page=1&KJLhklhddopi" ∧
    (∀ path : String,
      matchQuery E ⟨path, "(category|limit|sort|page)=.*"⟩ "page=1&KJLhklhddopi" = true) := by
  have hf : Found E "(category|limit|sort|page)=.*" "page=1&KJLhklhddopi" :=
    Found_of_agreesOn E _ _ hE (by decide)
  refine ⟨?_, ?_, ?_, ?_, hf, ?_⟩
  · intro pc query h
    simp [matchQuery, h]
  · intro path
    simp [matchQuery]
  · intro pc query h
    rw [matchQuery_true_iff]
    constructor
    · rintro (h' | h')
      · exact absurd h' h
      · exact h'
    · exact Or.inr
  · intro pc query h
    simp [matchQuery, h]
  · intro path
    exact (matchQuery_true_iff E _ _).2 (Or.inr hf)

/-- Scenario C of the specification, on the fragment. -/
theorem matchQuery_searches_raw_query_witness :
    RE2.engine.agreesOn "(category|limit|sort|page)=.*" ∧
    matchQuery RE2.engine ⟨"^/$", "(category|limit|sort|page)=.*"⟩ "page=1&KJLhklhddopi" = true :=
  ⟨agreesOn_engine _,
   (matchQuery_searches_raw_query RE2.engine (agreesOn_engine _)).2.2.2.2.2 "^/$"⟩

/-! ## Malformed patterns at match time -/

/-- C10. A malformed pattern met at match time is a non-match and never an
error.  `regexp.MatchString` answers `(false, err)` for a pattern that does not
compile and the program drops `err`.  For a rule whose path pattern is invalid,
or whose non-empty query pattern is invalid, the condition of the loop body is
false for every request, and `ServeHTTP` does what it does without that rule,
in the whitelist as in the blacklist: evaluation goes on with the other rules.
For every rule set `ServeHTTP` ends in exactly one of Allow and Deny.  With an
empty whitelist and the one blacklist rule `{PathRegex: "*"}` every request is
allowed (for an engine that rejects `*` the way the fragment does). -/
theorem malformed_pattern_is_non_match {H W : Type} (E : Engine) (pc : PathConfig)
    (next : H) (name : String) (rw : W) (req : Request) :
    (∀ (pattern s : String) (err : E.Error), E.Compile pattern = .error err →
      regexp.MatchString E pattern s = (false, some err)) ∧
    ((¬ Valid E pc.PathRegex ∨ (pc.QueryParamRegex ≠ "" ∧ ¬ Valid E pc.QueryParamRegex)) →
      ((regexp.MatchString E pc.PathRegex req.URL.Path).1 &&
        matchQuery E pc req.URL.RawQuery) = false ∧
      (∀ wl₁ wl₂ bl : List PathConfig,
        ServeHTTP E ⟨next, name, ⟨wl₁ ++ pc :: wl₂, bl⟩⟩ rw req
          = ServeHTTP E ⟨next, name, ⟨wl₁ ++ wl₂, bl⟩⟩ rw req) ∧
      (∀ wl bl₁ bl₂ : List PathConfig,
        ServeHTTP E ⟨next, name, ⟨wl, bl₁ ++ pc :: bl₂⟩⟩ rw req
          = ServeHTTP E ⟨next, name, ⟨wl, bl₁ ++ bl₂⟩⟩ rw req)) ∧
    (∀ conf : Config,
      (ServeHTTP E ⟨next, name, conf⟩ rw req = [Call.nextServeHTTP next rw req] ∨
        ServeHTTP E ⟨next, name, conf⟩ rw req = [Call.httpError rw "Forbidden" 403]) ∧
      ¬ (ServeHTTP E ⟨next, name, conf⟩ rw req = [Call.nextServeHTTP next rw req] ∧
        ServeHTTP E ⟨next, name, conf⟩ rw req = [Call.httpError rw "Forbidden" 403])) ∧
    (E.agreesOn "*" →
      ¬ Valid E "*" ∧
      ServeHTTP E ⟨next, name, ⟨[], [⟨"*", ""⟩]⟩⟩ rw req = [Call.nextServeHTTP next rw req]) := by
  refine ⟨fun pattern s err h => MatchString_of_compile_error E pattern s err h, ?_, ?_, ?_⟩
  · intro hbad
    have hno : ¬ Matches E pc req.URL.Path req.URL.RawQuery :=
      not_Matches_of_invalid E pc hbad _ _
    refine ⟨?_, ?_, ?_⟩
    · rw [← Bool.not_eq_true]
      exact fun hc => hno ((body_condition_iff E pc _ _).1 hc)
    · intro wl₁ wl₂ bl
      simp only [ServeHTTP]
      rw [whitelistLoop_remove E _ rw req _ _ pc wl₁ wl₂ hno,
        whitelistLoop_congr_next E ⟨next, name, ⟨wl₁ ++ pc :: wl₂, bl⟩⟩
          ⟨next, name, ⟨wl₁ ++ wl₂, bl⟩⟩ rw req _ _ _ rfl]
    · intro wl bl₁ bl₂
      simp only [ServeHTTP]
      rw [blacklistLoop_remove E rw _ _ pc bl₁ bl₂ hno,
        whitelistLoop_congr_next E ⟨next, name, ⟨wl, bl₁ ++ pc :: bl₂⟩⟩
          ⟨next, name, ⟨wl, bl₁ ++ bl₂⟩⟩ rw req _ _ _ rfl]
  · intro conf
    refine ⟨ServeHTTP_allow_or_deny E ⟨next, name, conf⟩ rw req, ?_⟩
    rintro ⟨h₁, h₂⟩
    rw [h₁] at h₂
    simp at h₂
  · intro hE
    have hinv : ¬ Valid E "*" :=
      not_Valid_of_agreesOn E "*" hE ⟨RE2.ErrorCode.ErrMissingRepeatArgument, "*"⟩ rfl
        (by decide)
    refine ⟨hinv, ?_⟩
    exact ServeHTTP_of_no_match E ⟨next, name, ⟨[], [⟨"*", ""⟩]⟩⟩ rw req
      (fun pc hpc => absurd hpc (List.not_mem_nil pc))
      (fun pc hpc => by
        rw [List.mem_singleton.1 hpc]
        exact not_Matches_of_invalid E ⟨"*", ""⟩ (Or.inl hinv) _ _)

/-- The rule `{PathRegex: "/", QueryParamRegex: "*"}` in front of a blacklist that
denies `/test`, and the sole blacklist rule `{PathRegex: "*"}`. -/
theorem malformed_pattern_is_non_match_witness :
    ((¬ Valid RE2.engine "/" ∨ ("*" ≠ "" ∧ ¬ Valid RE2.engine "*")) ∧ RE2.engine.agreesOn "*") ∧
    ServeHTTP RE2.engine ⟨"next", "requestpolicy", ⟨[], [] ++ ⟨"/", "*"⟩ :: [⟨"/test", ""⟩]⟩⟩
        (7 : Nat) (testRequest "/test" "x=1")
      = ServeHTTP RE2.engine ⟨"next", "requestpolicy", ⟨[], [] ++ [⟨"/test", ""⟩]⟩⟩
        (7 : Nat) (testRequest "/test" "x=1") ∧
    ServeHTTP RE2.engine ⟨"next", "requestpolicy", ⟨[], [⟨"*", ""⟩]⟩⟩
        (7 : Nat) (testRequest "/test" "x=1")
      = [Call.nextServeHTTP "next" 7 (testRequest "/test" "x=1")] :=
  ⟨⟨by decide, agreesOn_engine "*"⟩,
   ((malformed_pattern_is_non_match RE2.engine ⟨"/", "*"⟩ "next" "requestpolicy" (7 : Nat)
      (testRequest "/test" "x=1")).2.1 (by decide)).2.2 [] [] [⟨"/test", ""⟩],
   ((malformed_pattern_is_non_match RE2.engine ⟨"/", "*"⟩ "next" "requestpolicy" (7 : Nat)
      (testRequest "/test" "x=1")).2.2.2 (agreesOn_engine "*")).2⟩

/-! ## The decision as a function of which rules match -/

theorem ServeHTTP_allow_ne_deny {H W : Type} (next : H) (rw : W) (req : Request) :
    ([Call.nextServeHTTP next rw req] : List (Call H W))
      ≠ [Call.httpError rw "Forbidden" 403] := by
  simp

theorem ServeHTTP_allow_iff {H W : Type} (E : Engine) (m : Middleware H) (rw : W)
    (req : Request) :
    ServeHTTP E m rw req = [Call.nextServeHTTP m.next rw req] ↔
      ((∃ pc ∈ m.config.WhitelistPaths, Matches E pc req.URL.Path req.URL.RawQuery) ∨
        ∀ pc ∈ m.config.BlacklistPaths, ¬ Matches E pc req.URL.Path req.URL.RawQuery) := by
  constructor
  · intro h
    by_contra hn
    simp only [not_or, not_exists, not_and, not_forall, not_not] at hn
    obtain ⟨hw, pc, hpc, hm⟩ := hn
    rw [ServeHTTP_of_blacklist_match E m rw req hw ⟨pc, hpc, hm⟩] at h
    exact ServeHTTP_allow_ne_deny m.next rw req h.symm
  · intro h
    by_cases hw : ∃ pc ∈ m.config.WhitelistPaths, Matches E pc req.URL.Path req.URL.RawQuery
    · exact ServeHTTP_of_whitelist_match E m rw req hw
    · rcases h with h | h
      · exact absurd h hw
      · exact ServeHTTP_of_no_match E m rw req (fun pc hpc hm => hw ⟨pc, hpc, hm⟩) h

theorem ServeHTTP_deny_iff {H W : Type} (E : Engine) (m : Middleware H) (rw : W)
    (req : Request) :
    ServeHTTP E m rw req = [Call.httpError rw "Forbidden" 403] ↔
      ((∀ pc ∈ m.config.WhitelistPaths, ¬ Matches E pc req.URL.Path req.URL.RawQuery) ∧
        ∃ pc ∈ m.config.BlacklistPaths, Matches E pc req.URL.Path req.URL.RawQuery) := by
  constructor
  · intro h
    by_contra hn
    have ha : ServeHTTP E m rw req = [Call.nextServeHTTP m.next rw req] := by
      rw [ServeHTTP_allow_iff]
      by_cases hw : ∃ pc ∈ m.config.WhitelistPaths, Matches E pc req.URL.Path req.URL.RawQuery
      · exact Or.inl hw
      · refine Or.inr (fun pc hpc hm => hn ⟨fun pc' hpc' hm' => hw ⟨pc', hpc', hm'⟩, pc, hpc, hm⟩)
    rw [ha] at h
    exact ServeHTTP_allow_ne_deny m.next rw req h
  · rintro ⟨hw, hb⟩
    exact ServeHTTP_of_blacklist_match E m rw req hw hb

/-- Two evaluators with the same downstream handler perform the same calls on
two requests as soon as, in each list, a matching rule exists for the one
exactly when a matching rule exists for the other. -/
theorem ServeHTTP_congr {H W : Type} (E : Engine) (m m' : Middleware H) (rw : W)
    (req : Request) (hn : m.next = m'.next)
    (hw : (∃ pc ∈ m.config.WhitelistPaths, Matches E pc req.URL.Path req.URL.RawQuery) ↔
      ∃ pc ∈ m'.config.WhitelistPaths, Matches E pc req.URL.Path req.URL.RawQuery)
    (hb : (∃ pc ∈ m.config.BlacklistPaths, Matches E pc req.URL.Path req.URL.RawQuery) ↔
      ∃ pc ∈ m'.config.BlacklistPaths, Matches E pc req.URL.Path req.URL.RawQuery) :
    ServeHTTP E m rw req = ServeHTTP E m' rw req := by
  rcases ServeHTTP_allow_or_deny E m rw req with h | h
  · rw [h, hn]
    symm
    rw [ServeHTTP_allow_iff] at h ⊢
    rcases h with h | h
    · exact Or.inl (hw.1 h)
    · exact Or.inr (fun pc hpc hm => by
        obtain ⟨pc', hpc', hm'⟩ := hb.2 ⟨pc, hpc, hm⟩
        exact h pc' hpc' hm')
  · rw [h]
    symm
    rw [ServeHTTP_deny_iff] at h ⊢
    exact ⟨fun pc hpc hm => by
        obtain ⟨pc', hpc', hm'⟩ := hw.2 ⟨pc, hpc, hm⟩
        exact h.1 pc' hpc' hm', hb.1 h.2⟩

theorem exists_mem_congr_of_mem_iff {l l' : List PathConfig} (P : PathConfig → Prop)
    (h : ∀ pc, pc ∈ l ↔ pc ∈ l') : (∃ pc ∈ l, P pc) ↔ ∃ pc ∈ l', P pc :=
  ⟨fun ⟨pc, hpc, hP⟩ => ⟨pc, (h pc).1 hpc, hP⟩, fun ⟨pc, hpc, hP⟩ => ⟨pc, (h pc).2 hpc, hP⟩⟩

/-- C11. The decision does not depend on the order of the rules in a list: with
a permutation of the whitelist and a permutation of the blacklist `ServeHTTP`
performs the same calls, so the outcome (Allow or Deny) is the same; and writing
a rule of a list a second time, anywhere in that list, changes nothing either. -/
theorem decision_independent_of_rule_order {H W : Type} (E : Engine) (next : H)
    (name : String) (whitelist whitelist' blacklist blacklist' : List PathConfig)
    (rw : W) (req : Request)
    (hW : whitelist'.Perm whitelist) (hB : blacklist'.Perm blacklist) :
    ServeHTTP E ⟨next, name, ⟨whitelist', blacklist'⟩⟩ rw req
      = ServeHTTP E ⟨next, name, ⟨whitelist, blacklist⟩⟩ rw req ∧
    (∀ (pc : PathConfig) (l₁ l₂ : List PathConfig), whitelist = l₁ ++ l₂ → pc ∈ whitelist →
      ServeHTTP E ⟨next, name, ⟨l₁ ++ pc :: l₂, blacklist⟩⟩ rw req
        = ServeHTTP E ⟨next, name, ⟨whitelist, blacklist⟩⟩ rw req) ∧
    (∀ (pc : PathConfig) (l₁ l₂ : List PathConfig), blacklist = l₁ ++ l₂ → pc ∈ blacklist →
      ServeHTTP E ⟨next, name, ⟨whitelist, l₁ ++ pc :: l₂⟩⟩ rw req
        = ServeHTTP E ⟨next, name, ⟨whitelist, blacklist⟩⟩ rw req) := by
  refine ⟨?_, ?_, ?_⟩
  · exact ServeHTTP_congr E _ _ rw req rfl
      (exists_mem_congr_of_mem_iff _ (fun pc => hW.mem_iff))
      (exists_mem_congr_of_mem_iff _ (fun pc => hB.mem_iff))
  · intro pc l₁ l₂ hl hpc
    refine ServeHTTP_congr E _ _ rw req rfl
      (exists_mem_congr_of_mem_iff _ (fun r => ?_)) Iff.rfl
    subst hl
    simp only [List.mem_append, List.mem_cons] at hpc ⊢
    constructor
    · rintro (h | rfl | h)
      · exact Or.inl h
      · exact hpc
      · exact Or.inr h
    · rintro (h | h)
      · exact Or.inl h
      · exact Or.inr (Or.inr h)
  · intro pc l₁ l₂ hl hpc
    refine ServeHTTP_congr E _ _ rw req rfl Iff.rfl
      (exists_mem_congr_of_mem_iff _ (fun r => ?_))
    subst hl
    simp only [List.mem_append, List.mem_cons] at hpc ⊢
    constructor
    · rintro (h | rfl | h)
      · exact Or.inl h
      · exact hpc
      · exact Or.inr h
    · rintro (h | h)
      · exact Or.inl h
      · exact Or.inr (Or.inr h)

/-- The test "multiple matching rules in whitelistPaths" with its two whitelist
rules swapped, and with the first of them written twice. -/
theorem decision_independent_of_rule_order_witness :
    ([(⟨"^/test$", "(sort)=.*"⟩ : PathConfig), ⟨"^/test$", "(page)=.*"⟩].Perm
        [⟨"^/test$", "(page)=.*"⟩, ⟨"^/test$", "(sort)=.*"⟩] ∧
      ([] : List PathConfig).Perm []) ∧
    ServeHTTP RE2.engine ⟨"next", "requestpolicy",
        ⟨[⟨"^/test$", "(sort)=.*"⟩, ⟨"^/test$", "(page)=.*"⟩], []⟩⟩ (7 : Nat)
        (testRequest "/test" "page=1&sort=latest")
      = ServeHTTP RE2.engine ⟨"next", "requestpolicy",
        ⟨[⟨"^/test$", "(page)=.*"⟩, ⟨"^/test$", "(sort)=.*"⟩], []⟩⟩ (7 : Nat)
        (testRequest "/test" "page=1&sort=latest") ∧
    ServeHTTP RE2.engine ⟨"next", "requestpolicy",
        ⟨[⟨"^/test$", "(page)=.*"⟩] ++ ⟨"^/test$", "(page)=.*"⟩ :: [⟨"^/test$", "(sort)=.*"⟩],
          []⟩⟩ (7 : Nat) (testRequest "/test" "page=1&sort=latest")
      = ServeHTTP RE2.engine ⟨"next", "requestpolicy",
        ⟨[⟨"^/test$", "(page)=.*"⟩, ⟨"^/test$", "(sort)=.*"⟩], []⟩⟩ (7 : Nat)
        (testRequest "/test" "page=1&sort=latest") :=
  have h := decision_independent_of_rule_order RE2.engine "next" "requestpolicy"
    [⟨"^/test$", "(page)=.*"⟩, ⟨"^/test$", "(sort)=.*"⟩]
    [⟨"^/test$", "(sort)=.*"⟩, ⟨"^/test$", "(page)=.*"⟩] [] [] (7 : Nat)
    (testRequest "/test" "page=1&sort=latest") (List.Perm.swap _ _ _) (List.Perm.refl _)
  ⟨⟨List.Perm.swap _ _ _, List.Perm.refl _⟩, h.1,
    h.2.1 ⟨"^/test$", "(page)=.*"⟩ [⟨"^/test$", "(page)=.*"⟩] [⟨"^/test$", "(sort)=.*"⟩] rfl
      (by decide)⟩

/-! ## Empty lists -/

theorem Found_iff_of_agreesOn (E : Engine) (pattern s : String) (hE : E.agreesOn pattern)
    (re : RE2.Regexp) (hp : RE2.Parse pattern = .ok re) :
    Found E pattern s ↔ re.MatchString s = true := by
  unfold Engine.agreesOn at hE
  rw [hp] at hE
  obtain ⟨re', hc, hs⟩ := hE
  constructor
  · rintro ⟨re'', hc', hm⟩
    rw [hc] at hc'
    cases hc'
    rw [← hs s]
    exact hm
  · intro hm
    exact ⟨re', hc, (hs s).trans hm⟩

theorem New_of_valid {H : Type} (E : Engine) (ctx : context.Context) (next : H)
    (conf : Config) (name : String)
    (h : ∀ pc ∈ conf.WhitelistPaths ++ conf.BlacklistPaths,
      Valid E pc.PathRegex ∧ Valid E pc.QueryParamRegex) :
    New E ctx next conf name = (some ⟨next, name, conf⟩, none) := by
  unfold New
  rw [(New_loop_eq_none_iff E _).2 h]

/-- C12. An empty list is valid and is skipped.  `New` succeeds on two empty
lists, and on one empty list next to a list whose patterns all compile.  With an
empty blacklist `ServeHTTP` forwards every request to `next`, whatever the
whitelist holds and whether or not one of its rules matches; so does it for the
whitelist `[{PathRegex: "^/$"}]` and the path `/test`, where the rule does not
match (for an engine that treats `^/$` the way the fragment does). -/
theorem empty_lists_are_valid_and_skipped {H W : Type} (E : Engine) (ctx : context.Context)
    (next : H) (name : String) (rules : List PathConfig) (rw : W) (req : Request)
    (hvalid : ∀ pc ∈ rules, Valid E pc.PathRegex ∧ Valid E pc.QueryParamRegex) :
    New E ctx next ⟨[], []⟩ name = (some ⟨next, name, ⟨[], []⟩⟩, none) ∧
    New E ctx next ⟨rules, []⟩ name = (some ⟨next, name, ⟨rules, []⟩⟩, none) ∧
    New E ctx next ⟨[], rules⟩ name = (some ⟨next, name, ⟨[], rules⟩⟩, none) ∧
    (∀ whitelist : List PathConfig,
      ServeHTTP E ⟨next, name, ⟨whitelist, []⟩⟩ rw req = [Call.nextServeHTTP next rw req]) ∧
    (E.agreesOn "^/$" → req.URL.Path = "/test" →
      ¬ Matches E ⟨"^/$", ""⟩ req.URL.Path req.URL.RawQuery ∧
      ServeHTTP E ⟨next, name, ⟨[⟨"^/$", ""⟩], []⟩⟩ rw req
        = [Call.nextServeHTTP next rw req]) := by
  have hskip : ∀ whitelist : List PathConfig,
      ServeHTTP E ⟨next, name, ⟨whitelist, []⟩⟩ rw req = [Call.nextServeHTTP next rw req] := by
    intro whitelist
    exact (ServeHTTP_allow_iff E ⟨next, name, ⟨whitelist, []⟩⟩ rw req).2
      (Or.inr (fun pc hpc => absurd hpc (List.not_mem_nil pc)))
  refine ⟨?_, ?_, ?_, hskip, ?_⟩
  · exact New_of_valid E ctx next ⟨[], []⟩ name
      (fun pc hpc => absurd hpc (List.not_mem_nil pc))
  · exact New_of_valid E ctx next ⟨rules, []⟩ name
      (fun pc hpc => hvalid pc (by simpa using hpc))
  · exact New_of_valid E ctx next ⟨[], rules⟩ name
      (fun pc hpc => hvalid pc (by simpa using hpc))
  · intro hE hpath
    refine ⟨?_, hskip _⟩
    rintro ⟨hf, -⟩
    rw [hpath] at hf
    have hm := (Found_iff_of_agreesOn E "^/$" "/test" hE _ rfl).1 hf
    exact absurd hm (by decide)

/-- Scenario A of the specification (the test "Should return ok status"), and
`New` on the rules of that test as a whitelist and as a blacklist. -/
theorem empty_lists_are_valid_and_skipped_witness :
    (∀ pc ∈ [(⟨"^/$", ""⟩ : PathConfig)],
      Valid RE2.engine pc.PathRegex ∧ Valid RE2.engine pc.QueryParamRegex) ∧
    New RE2.engine () "next" ⟨[⟨"^/$", ""⟩], []⟩ "requestpolicy"
      = (some ⟨"next", "requestpolicy", ⟨[⟨"^/$", ""⟩], []⟩⟩, none) ∧
    New RE2.engine () "next" ⟨[], [⟨"^/$", ""⟩]⟩ "requestpolicy"
      = (some ⟨"next", "requestpolicy", ⟨[], [⟨"^/$", ""⟩]⟩⟩, none) ∧
    ServeHTTP RE2.engine ⟨"next", "requestpolicy", ⟨[⟨"^/$", ""⟩], []⟩⟩ (7 : Nat)
        (testRequest "/test" "")
      = [Call.nextServeHTTP "next" 7 (testRequest "/test" "")] :=
  have h := empty_lists_are_valid_and_skipped (W := Nat) RE2.engine () "next" "requestpolicy"
    [⟨"^/$", ""⟩] 7 (testRequest "/test" "") (by decide)
  ⟨by decide, h.2.1, h.2.2.1, (h.2.2.2.2 (agreesOn_engine "^/$") rfl).2⟩

/-! ## Validated patterns -/

/-- C14. For an evaluator that `New` returned without error, no match performed
by `ServeHTTP` or `matchQuery` fails: the evaluator holds the rule set given to
`New`, and for every rule of its two lists and every text, `regexp.MatchString`
on the path pattern and on the query pattern returns a nil error and the result
of the search of the compiled pattern in the text. -/
theorem validated_patterns_never_fail_at_match_time {H : Type} (E : Engine)
    (ctx : context.Context) (next : H) (conf : Config) (name : String) (m : Middleware H)
    (hnew : New E ctx next conf name = (some m, none)) :
    m.config = conf ∧
    ∀ pc, pc ∈ m.config.WhitelistPaths ∨ pc ∈ m.config.BlacklistPaths → ∀ s : String,
      (regexp.MatchString E pc.PathRegex s).2 = none ∧
      (regexp.MatchString E pc.QueryParamRegex s).2 = none ∧
      (∃ re, E.Compile pc.PathRegex = .ok re ∧
        (regexp.MatchString E pc.PathRegex s).1 = E.reMatchString re s) ∧
      (∃ re, E.Compile pc.QueryParamRegex = .ok re ∧
        matchQuery E pc s = (pc.QueryParamRegex = "" || E.reMatchString re s)) := by
  unfold New at hnew
  cases hl : New.loop E (conf.WhitelistPaths ++ conf.BlacklistPaths) with
  | some e => rw [hl] at hnew; simp at hnew
  | none =>
    rw [hl] at hnew
    simp only [Prod.mk.injEq, Option.some.injEq, and_true] at hnew
    subst hnew
    refine ⟨rfl, ?_⟩
    intro pc hpc s
    obtain ⟨⟨re, hre⟩, ⟨re', hre'⟩⟩ :=
      (New_loop_eq_none_iff E _).1 hl pc (List.mem_append.2 hpc)
    refine ⟨?_, ?_, ⟨re, hre, ?_⟩, ⟨re', hre', ?_⟩⟩
    · simp [regexp.MatchString, hre]
    · simp [regexp.MatchString, hre']
    · simp [regexp.MatchString, hre]
    · by_cases hq : pc.QueryParamRegex = ""
      · simp [matchQuery, hq]
      · simp [matchQuery, hq, regexp.MatchString, hre']

/-- The first case of `TestNew`, and one match of each of its two patterns. -/
theorem validated_patterns_never_fail_at_match_time_witness :
    New RE2.engine () "next" ⟨[⟨"^/$", "(category)=oldest*"⟩], []⟩ "requestpolicy"
      = (some ⟨"next", "requestpolicy", ⟨[⟨"^/$", "(category)=oldest*"⟩], []⟩⟩, none) ∧
    (regexp.MatchString RE2.engine "^/$" "/").2 = none ∧
    (regexp.MatchString RE2.engine "(category)=oldest*" "category=old").2 = none :=
  have hnew : New RE2.engine () "next" ⟨[⟨"^/$", "(category)=oldest*"⟩], []⟩ "requestpolicy"
      = (some ⟨"next", "requestpolicy", ⟨[⟨"^/$", "(category)=oldest*"⟩], []⟩⟩, none) := rfl
  have h := (validated_patterns_never_fail_at_match_time RE2.engine () "next"
    ⟨[⟨"^/$", "(category)=oldest*"⟩], []⟩ "requestpolicy" _ hnew).2
    ⟨"^/$", "(category)=oldest*"⟩ (Or.inl (List.mem_singleton.2 rfl))
  ⟨hnew, (h "/").1, (h "category=old").2.1⟩

/-! ## What the decision depends on -/

/-- C17. The decision depends only on the rule set, the path and the raw query:
two evaluators with the same rule set, whatever their names and downstream
handlers, given two requests with the same `URL.Path` and the same
`URL.RawQuery`, whatever the other fields of the requests and the response
writers, either both forward to their handler or both answer 403. -/
theorem decision_depends_only_on_path_and_query {H H' W W' : Type} (E : Engine)
    (conf : Config) (next : H) (next' : H') (name name' : String) (rw : W) (rw' : W')
    (req req' : Request)
    (hpath : req.URL.Path = req'.URL.Path) (hquery : req.URL.RawQuery = req'.URL.RawQuery) :
    (ServeHTTP E ⟨next, name, conf⟩ rw req = [Call.nextServeHTTP next rw req] ∧
      ServeHTTP E ⟨next', name', conf⟩ rw' req' = [Call.nextServeHTTP next' rw' req']) ∨
    (ServeHTTP E ⟨next, name, conf⟩ rw req = [Call.httpError rw "Forbidden" 403] ∧
      ServeHTTP E ⟨next', name', conf⟩ rw' req' = [Call.httpError rw' "Forbidden" 403]) := by
  rcases ServeHTTP_allow_or_deny E ⟨next, name, conf⟩ rw req with h | h
  · refine Or.inl ⟨h, ?_⟩
    have h' := (ServeHTTP_allow_iff E ⟨next, name, conf⟩ rw req).1 h
    rw [hpath, hquery] at h'
    exact (ServeHTTP_allow_iff E ⟨next', name', conf⟩ rw' req').2 h'
  · refine Or.inr ⟨h, ?_⟩
    have h' := (ServeHTTP_deny_iff E ⟨next, name, conf⟩ rw req).1 h
    rw [hpath, hquery] at h'
    exact (ServeHTTP_deny_iff E ⟨next', name', conf⟩ rw' req').2 h'

/-- A `GET` and a `POST` with a header, another host and a body, for the same
path and raw query, through evaluators of different names and handlers: both
are denied by the blacklist of the test "forbidden status with query param". -/
theorem decision_depends_only_on_path_and_query_witness :
    ((testRequest "/" "page=1&KJLhklhddopi").URL.Path
        = (⟨"POST", ⟨"https", "other.example", "/", "page=1&KJLhklhddopi", "top"⟩,
            [("X-Forwarded-For", ["10.0.0.1"])], "other.example", "payload"⟩ : Request).URL.Path ∧
      (testRequest "/" "page=1&KJLhklhddopi").URL.RawQuery
        = (⟨"POST", ⟨"https", "other.example", "/", "page=1&KJLhklhddopi", "top"⟩,
            [("X-Forwarded-For", ["10.0.0.1"])], "other.example", "payload"⟩ :
              Request).URL.RawQuery) ∧
    ServeHTTP RE2.engine
        ⟨"next", "requestpolicy", ⟨[], [⟨"^/$", "(category|limit|sort|page)=.*"⟩]⟩⟩ (7 : Nat)
        (testRequest "/" "page=1&KJLhklhddopi") = [Call.httpError 7 "Forbidden" 403] ∧
    ServeHTTP RE2.engine
        ⟨(0 : Nat), "other", ⟨[], [⟨"^/$", "(category|limit|sort|page)=.*"⟩]⟩⟩ "recorder"
        ⟨"POST", ⟨"https", "other.example", "/", "page=1&KJLhklhddopi", "top"⟩,
          [("X-Forwarded-For", ["10.0.0.1"])], "other.example", "payload"⟩
      = [Call.httpError "recorder" "Forbidden" 403] :=
  ⟨⟨rfl, rfl⟩,
   (decision_depends_only_on_path_and_query RE2.engine
      ⟨[], [⟨"^/$", "(category|limit|sort|page)=.*"⟩]⟩ "next" (0 : Nat) "requestpolicy" "other"
      (7 : Nat) "recorder" (testRequest "/" "page=1&KJLhklhddopi")
      ⟨"POST", ⟨"https", "other.example", "/", "page=1&KJLhklhddopi", "top"⟩,
        [("X-Forwarded-For", ["10.0.0.1"])], "other.example", "payload"⟩ rfl rfl).resolve_left
      (fun h => absurd h.1 (by decide))⟩

/-- C18. The decision is monotone in each list.  When rules are added to the
whitelist, anywhere in it, an allowed request stays allowed; when rules are
added to the blacklist, anywhere in it, a denied request stays denied.  Read the
other way: removing whitelist rules keeps a denied request denied, and removing
blacklist rules keeps an allowed request allowed. -/
theorem decision_monotone_in_each_list {H W : Type} (E : Engine) (next : H) (name : String)
    (whitelist whitelist' blacklist blacklist' : List PathConfig) (rw : W) (req : Request)
    (hw : whitelist.Sublist whitelist') (hb : blacklist.Sublist blacklist') :
    (ServeHTTP E ⟨next, name, ⟨whitelist, blacklist⟩⟩ rw req
        = [Call.nextServeHTTP next rw req] →
      ServeHTTP E ⟨next, name, ⟨whitelist', blacklist⟩⟩ rw req
        = [Call.nextServeHTTP next rw req]) ∧
    (ServeHTTP E ⟨next, name, ⟨whitelist, blacklist⟩⟩ rw req
        = [Call.httpError rw "Forbidden" 403] →
      ServeHTTP E ⟨next, name, ⟨whitelist, blacklist'⟩⟩ rw req
        = [Call.httpError rw "Forbidden" 403]) ∧
    (ServeHTTP E ⟨next, name, ⟨whitelist', blacklist⟩⟩ rw req
        = [Call.httpError rw "Forbidden" 403] →
      ServeHTTP E ⟨next, name, ⟨whitelist, blacklist⟩⟩ rw req
        = [Call.httpError rw "Forbidden" 403]) ∧
    (ServeHTTP E ⟨next, name, ⟨whitelist, blacklist'⟩⟩ rw req
        = [Call.nextServeHTTP next rw req] →
      ServeHTTP E ⟨next, name, ⟨whitelist, blacklist⟩⟩ rw req
        = [Call.nextServeHTTP next rw req]) := by
  refine ⟨?_, ?_, ?_, ?_⟩
  · intro h
    have h' := (ServeHTTP_allow_iff E ⟨next, name, ⟨whitelist, blacklist⟩⟩ rw req).1 h
    refine (ServeHTTP_allow_iff E ⟨next, name, ⟨whitelist', blacklist⟩⟩ rw req).2 ?_
    rcases h' with ⟨pc, hpc, hm⟩ | h'
    · exact Or.inl ⟨pc, hw.subset hpc, hm⟩
    · exact Or.inr h'
  · intro h
    have h' := (ServeHTTP_deny_iff E ⟨next, name, ⟨whitelist, blacklist⟩⟩ rw req).1 h
    refine (ServeHTTP_deny_iff E ⟨next, name, ⟨whitelist, blacklist'⟩⟩ rw req).2 ?_
    obtain ⟨hno, pc, hpc, hm⟩ := h'
    exact ⟨hno, pc, hb.subset hpc, hm⟩
  · intro h
    have h' := (ServeHTTP_deny_iff E ⟨next, name, ⟨whitelist', blacklist⟩⟩ rw req).1 h
    refine (ServeHTTP_deny_iff E ⟨next, name, ⟨whitelist, blacklist⟩⟩ rw req).2 ?_
    exact ⟨fun pc hpc => h'.1 pc (hw.subset hpc), h'.2⟩
  · intro h
    have h' := (ServeHTTP_allow_iff E ⟨next, name, ⟨whitelist, blacklist'⟩⟩ rw req).1 h
    refine (ServeHTTP_allow_iff E ⟨next, name, ⟨whitelist, blacklist⟩⟩ rw req).2 ?_
    rcases h' with h' | h'
    · exact Or.inl h'
    · exact Or.inr (fun pc hpc => h' pc (hb.subset hpc))

/-- The rules of the test "ok status with query param" and of the second test
"forbidden status with query param": a whitelist rule put in front of a rule
that allows, a blacklist rule put behind a rule that denies. -/
theorem decision_monotone_in_each_list_witness :
    (([(⟨"^/test$", "(page)=.*"⟩ : PathConfig)]).Sublist
        [⟨"^/hello$", ""⟩, ⟨"^/test$", "(page)=.*"⟩] ∧
      ([(⟨"^/test$", "(category|limit|sort|page)=.*"⟩ : PathConfig)]).Sublist
        [⟨"^/test$", "(category|limit|sort|page)=.*"⟩, ⟨"^/other$", ""⟩]) ∧
    ServeHTTP RE2.engine ⟨"next", "requestpolicy",
        ⟨[⟨"^/hello$", ""⟩, ⟨"^/test$", "(page)=.*"⟩],
          [⟨"^/test$", "(category|limit|sort|page)=.*"⟩]⟩⟩ (7 : Nat) (testRequest "/test" "page=1")
      = [Call.nextServeHTTP "next" 7 (testRequest "/test" "page=1")] :=
  have hw : ([(⟨"^/test$", "(page)=.*"⟩ : PathConfig)]).Sublist
      [⟨"^/hello$", ""⟩, ⟨"^/test$", "(page)=.*"⟩] :=
    List.Sublist.cons _ (List.Sublist.refl _)
  have hb : ([(⟨"^/test$", "(category|limit|sort|page)=.*"⟩ : PathConfig)]).Sublist
      [⟨"^/test$", "(category|limit|sort|page)=.*"⟩, ⟨"^/other$", ""⟩] :=
    List.Sublist.cons₂ _ (List.nil_sublist _)
  ⟨⟨hw, hb⟩,
   (decision_monotone_in_each_list RE2.engine "next" "requestpolicy"
      [⟨"^/test$", "(page)=.*"⟩] [⟨"^/hello$", ""⟩, ⟨"^/test$", "(page)=.*"⟩]
      [⟨"^/test$", "(category|limit|sort|page)=.*"⟩]
      [⟨"^/test$", "(category|limit|sort|page)=.*"⟩, ⟨"^/other$", ""⟩]
      (7 : Nat) (testRequest "/test" "page=1") hw hb).1 (by decide)⟩

/-! ## The error of `New` -/

theorem New_loop_append_of_valid (E : Engine) (l₁ l₂ : List PathConfig)
    (h : ∀ r ∈ l₁, Valid E r.PathRegex ∧ Valid E r.QueryParamRegex) :
    New.loop E (l₁ ++ l₂) = New.loop E l₂ := by
  induction l₁ with
  | nil => rfl
  | cons a l ih =>
    obtain ⟨⟨re, hre⟩, ⟨re', hre'⟩⟩ := h a (List.mem_cons_self a l)
    simp only [List.cons_append, New.loop, hre, hre']
    exact ih (fun r hr => h r (List.mem_cons_of_mem a hr))

theorem New_loop_eq_some_kind (E : Engine) (l : List PathConfig) (e : fmt.wrapError E.Error)
    (h : New.loop E l = some e) :
    (e.msg = "invalid path regex: " ++ E.errorString e.err ∧
      ∃ pc ∈ l, E.Compile pc.PathRegex = .error e.err) ∨
    (e.msg = "invalid query param regex: " ++ E.errorString e.err ∧
      ∃ pc ∈ l, E.Compile pc.QueryParamRegex = .error e.err) := by
  induction l with
  | nil => simp [New.loop] at h
  | cons a l ih =>
    unfold New.loop at h
    cases hp : E.Compile a.PathRegex with
    | error err =>
      rw [hp] at h
      simp only [Option.some.injEq] at h
      subst h
      exact Or.inl ⟨rfl, a, List.mem_cons_self a l, hp⟩
    | ok re =>
      rw [hp] at h
      cases hq : E.Compile a.QueryParamRegex with
      | error err =>
        rw [hq] at h
        simp only [Option.some.injEq] at h
        subst h
        exact Or.inr ⟨rfl, a, List.mem_cons_self a l, hq⟩
      | ok re' =>
        rw [hq] at h
        rcases ih h with ⟨hmsg, pc, hpc, hc⟩ | ⟨hmsg, pc, hpc, hc⟩
        · exact Or.inl ⟨hmsg, pc, List.mem_cons_of_mem a hpc, hc⟩
        · exact Or.inr ⟨hmsg, pc, List.mem_cons_of_mem a hpc, hc⟩

theorem New_error_eq (E : Engine) {H : Type} (ctx : context.Context) (next : H)
    (conf : Config) (name : String) :
    (New E ctx next conf name).2 = New.loop E (conf.WhitelistPaths ++ conf.BlacklistPaths) := by
  unfold New
  cases New.loop E (conf.WhitelistPaths ++ conf.BlacklistPaths) <;> rfl

/-- C13, as amended.  When `New` fails, the one error it returns tells whether a
path pattern or a query pattern failed to compile (its message is `invalid path
regex: ` or `invalid query param regex: ` followed by the text of the compiler
error) and wraps the compiler error of such a pattern of a rule of one of the
two lists.  It does not tell which list the rule came from: every other way of
dividing the same sequence of rules between the whitelist and the blacklist
gives the same error. -/
theorem New_error_names_the_kind_of_pattern {H : Type} (E : Engine) (ctx : context.Context)
    (next : H) (conf : Config) (name : String) (e : fmt.wrapError E.Error)
    (hfail : (New E ctx next conf name).2 = some e) :
    ((e.msg = "invalid path regex: " ++ E.errorString e.err ∧
        ∃ pc, (pc ∈ conf.WhitelistPaths ∨ pc ∈ conf.BlacklistPaths) ∧
          E.Compile pc.PathRegex = .error e.err) ∨
      (e.msg = "invalid query param regex: " ++ E.errorString e.err ∧
        ∃ pc, (pc ∈ conf.WhitelistPaths ∨ pc ∈ conf.BlacklistPaths) ∧
          E.Compile pc.QueryParamRegex = .error e.err)) ∧
    (New E ctx next conf name).1 = none ∧
    ∀ conf' : Config,
      conf'.WhitelistPaths ++ conf'.BlacklistPaths
        = conf.WhitelistPaths ++ conf.BlacklistPaths →
      New E ctx next conf' name = (none, some e) := by
  rw [New_error_eq] at hfail
  refine ⟨?_, ?_, ?_⟩
  · rcases New_loop_eq_some_kind E _ e hfail with ⟨hmsg, pc, hpc, hc⟩ | ⟨hmsg, pc, hpc, hc⟩
    · exact Or.inl ⟨hmsg, pc, List.mem_append.1 hpc, hc⟩
    · exact Or.inr ⟨hmsg, pc, List.mem_append.1 hpc, hc⟩
  · unfold New
    rw [hfail]
  · intro conf' hsame
    unfold New
    rw [hsame, hfail]

/-- The second case of `TestNew`: the error for the blacklist rule `{"*", "*"}`
is the path error, and it is the error of the same rule put in the whitelist. -/
theorem New_error_names_the_kind_of_pattern_witness :
    (New RE2.engine () "next" ⟨[], [⟨"*", "*"⟩]⟩ "requestpolicy").2
      = some ⟨"invalid path regex: error parsing regexp: missing argument to repetition operator: `*`",
          ⟨RE2.ErrorCode.ErrMissingRepeatArgument, "*"⟩⟩ ∧
    New RE2.engine () "next" ⟨[⟨"*", "*"⟩], []⟩ "requestpolicy"
      = (none, some ⟨"invalid path regex: error parsing regexp: missing argument to repetition operator: `*`",
          ⟨RE2.ErrorCode.ErrMissingRepeatArgument, "*"⟩⟩) :=
  ⟨rfl, (New_error_names_the_kind_of_pattern RE2.engine () "next" ⟨[], [⟨"*", "*"⟩]⟩
    "requestpolicy" _ rfl).2.2 ⟨[⟨"*", "*"⟩], []⟩ rfl⟩

/-- C13, as stated, fails.  The rule `{PathRegex: "*"}` as the one whitelist rule
and the same rule as the one blacklist rule make `New` return the very same
error, whose message names no list; so no reading of the error tells whether the
offending rule came from the whitelist. -/
theorem New_error_does_not_name_the_list :
    (New RE2.engine () "next" ⟨[⟨"*", ""⟩], []⟩ "requestpolicy").2
      = (New RE2.engine () "next" ⟨[], [⟨"*", ""⟩]⟩ "requestpolicy").2 ∧
    (New RE2.engine () "next" ⟨[⟨"*", ""⟩], []⟩ "requestpolicy").2
      = some ⟨"invalid path regex: error parsing regexp: missing argument to repetition operator: `*`",
          ⟨RE2.ErrorCode.ErrMissingRepeatArgument, "*"⟩⟩ ∧
    ¬ ∃ fromWhitelist : fmt.wrapError RE2.Error → Bool,
      ∀ (conf : Config) (e : fmt.wrapError RE2.Error),
        (New RE2.engine () "next" conf "requestpolicy").2 = some e →
        (fromWhitelist e = true ↔
          ∃ pc ∈ conf.WhitelistPaths,
            ¬ Valid RE2.engine pc.PathRegex ∨ ¬ Valid RE2.engine pc.QueryParamRegex) := by
  refine ⟨rfl, rfl, ?_⟩
  rintro ⟨f, hf⟩
  have h₁ := hf ⟨[⟨"*", ""⟩], []⟩ _ rfl
  have h₂ := hf ⟨[], [⟨"*", ""⟩]⟩ _ rfl
  have hw : ∃ pc ∈ ([⟨"*", ""⟩] : List PathConfig),
      ¬ Valid RE2.engine pc.PathRegex ∨ ¬ Valid RE2.engine pc.QueryParamRegex := by decide
  have hb : ¬ ∃ pc ∈ ([] : List PathConfig),
      ¬ Valid RE2.engine pc.PathRegex ∨ ¬ Valid RE2.engine pc.QueryParamRegex := by simp
  exact hb (h₂.1 (h₁.2 hw))

/-- C15. When several patterns are invalid, `New` reports the first one in the
order: the rules of the whitelist in list order, then the rules of the
blacklist in list order, and in one rule the path pattern before the query
pattern.  The message is `invalid path regex: ` followed by the text of the
compiler error for a path pattern, and `invalid query param regex: ` followed
by it for a query pattern.  So the rule `{"*", "*"}` gives the path error and a
rule with a valid path pattern and the query pattern `*` gives the query error
(for an engine that rejects `*` the way the fragment does). -/
theorem New_reports_first_invalid_pattern {H : Type} (E : Engine) (ctx : context.Context)
    (next : H) (conf : Config) (name : String) (l₁ l₂ : List PathConfig) (pc : PathConfig)
    (hsplit : conf.WhitelistPaths ++ conf.BlacklistPaths = l₁ ++ pc :: l₂)
    (hfirst : ∀ r ∈ l₁, Valid E r.PathRegex ∧ Valid E r.QueryParamRegex) :
    (∀ err, E.Compile pc.PathRegex = .error err →
      New E ctx next conf name
        = (none, some ⟨"invalid path regex: " ++ E.errorString err, err⟩)) ∧
    (∀ err, Valid E pc.PathRegex → E.Compile pc.QueryParamRegex = .error err →
      New E ctx next conf name
        = (none, some ⟨"invalid query param regex: " ++ E.errorString err, err⟩)) ∧
    (E.agreesOn "*" → ∃ err, E.Compile "*" = .error err ∧
      New E ctx next ⟨[⟨"*", "*"⟩], []⟩ name
        = (none, some ⟨"invalid path regex: " ++ E.errorString err, err⟩) ∧
      ∀ path : String, Valid E path →
        New E ctx next ⟨[⟨path, "*"⟩], []⟩ name
          = (none, some ⟨"invalid query param regex: " ++ E.errorString err, err⟩)) := by
  have hloop : New.loop E (conf.WhitelistPaths ++ conf.BlacklistPaths)
      = New.loop E (pc :: l₂) := by
    rw [hsplit, New_loop_append_of_valid E l₁ _ hfirst]
  refine ⟨?_, ?_, ?_⟩
  · intro err herr
    unfold New
    rw [hloop]
    simp only [New.loop, herr, fmt.Errorf]
  · rintro err ⟨re, hre⟩ herr
    unfold New
    rw [hloop]
    simp only [New.loop, hre, herr, fmt.Errorf]
  · intro hE
    have hinv : ¬ Valid E "*" :=
      not_Valid_of_agreesOn E "*" hE ⟨RE2.ErrorCode.ErrMissingRepeatArgument, "*"⟩ rfl
        (by decide)
    obtain ⟨err, herr⟩ := (not_Valid_iff E "*").1 hinv
    refine ⟨err, herr, ?_, ?_⟩
    · simp only [New, List.append_nil, New.loop, herr, fmt.Errorf]
    · rintro path ⟨re, hre⟩
      simp only [New, List.append_nil, New.loop, herr, hre, fmt.Errorf]

/-- A valid whitelist rule, then the whitelist rule `{"/", "*"}`, then the
blacklist rule `{"(", ""}`: the error is the query error of the second rule. -/
theorem New_reports_first_invalid_pattern_witness :
    (((⟨[⟨"^/$", ""⟩, ⟨"/", "*"⟩], [⟨"(", ""⟩]⟩ : Config).WhitelistPaths ++
        (⟨[⟨"^/$", ""⟩, ⟨"/", "*"⟩], [⟨"(", ""⟩]⟩ : Config).BlacklistPaths
        = [⟨"^/$", ""⟩] ++ ⟨"/", "*"⟩ :: [⟨"(", ""⟩]) ∧
      (∀ r ∈ [(⟨"^/$", ""⟩ : PathConfig)],
        Valid RE2.engine r.PathRegex ∧ Valid RE2.engine r.QueryParamRegex) ∧
      Valid RE2.engine "/" ∧ ¬ Valid RE2.engine "(") ∧
    New RE2.engine () "next" ⟨[⟨"^/$", ""⟩, ⟨"/", "*"⟩], [⟨"(", ""⟩]⟩ "requestpolicy"
      = (none, some ⟨"invalid query param regex: error parsing regexp: missing argument to repetition operator: `*`",
          ⟨RE2.ErrorCode.ErrMissingRepeatArgument, "*"⟩⟩) :=
  ⟨⟨rfl, by decide, by decide, by decide⟩,
   (New_reports_first_invalid_pattern RE2.engine () "next"
      ⟨[⟨"^/$", ""⟩, ⟨"/", "*"⟩], [⟨"(", ""⟩]⟩ "requestpolicy" [⟨"^/$", ""⟩] [⟨"(", ""⟩]
      ⟨"/", "*"⟩ rfl (by decide)).2.1 ⟨RE2.ErrorCode.ErrMissingRepeatArgument, "*"⟩
      (by decide) rfl⟩

/-! ## The frame of `New` -/

theorem Slice.elems_length (h : Heap) (s : Slice) (hs : s.WellFormed h) :
    (s.elems h).length = s.len := by
  obtain ⟨-, h1, h2⟩ := hs
  simp only [Slice.elems, List.length_take, List.length_drop]
  omega

/-- The slice that `append` returns holds the elements of its first argument
followed by those of its second: the pure `++` of the embedding of `New`. -/
theorem builtin.append_elems (h : Heap) (s t : Slice) (hs : s.WellFormed h)
    (ht : t.WellFormed h) :
    (builtin.append h s t).2.elems (builtin.append h s t).1 = s.elems h ++ t.elems h := by
  have hl := Slice.elems_length h t ht
  have hls := Slice.elems_length h s hs
  obtain ⟨h0, h1, h2⟩ := hs
  unfold builtin.append
  split
  · rename_i hc
    simp only [Slice.elems, Function.update_same]
    rw [List.append_assoc, List.drop_append_of_le_length (by simp; omega)]
    rw [List.take_append_eq_append_take]
    simp only [List.length_drop, List.length_take]
    have e1 : min (s.off + s.len) (h.arrays s.array).length - s.off = s.len := by omega
    rw [e1]
    have e2 : s.len + t.len - s.len = t.len := by omega
    rw [e2]
    congr 1
    · rw [List.take_of_length_le (by simp; omega), List.drop_take]
      congr 1
      omega
    · rw [List.take_append_of_le_length (by rw [← Slice.elems, hl])]
      rw [← Slice.elems, List.take_of_length_le (by omega)]
  · simp only [Slice.elems, Function.update_same, List.drop_zero]
    rw [List.take_of_length_le]
    simp only [List.length_append]
    have := hl
    have := hls
    simp only [Slice.elems] at *
    omega

/-- The call `append(s, t...)` leaves the elements of `s` as they were. -/
theorem builtin.append_keeps_first (h : Heap) (s t : Slice) (hs : s.WellFormed h) :
    s.elems (builtin.append h s t).1 = s.elems h := by
  obtain ⟨h0, h1, h2⟩ := hs
  unfold builtin.append
  split
  · simp only [Slice.elems, Function.update_same]
    rw [List.append_assoc, List.drop_append_of_le_length (by simp; omega)]
    rw [List.take_append_of_le_length (by simp; omega)]
    rw [List.drop_take]
    rw [List.take_take]
    congr 1
    omega
  · simp only [Slice.elems]
    rw [Function.update_noteq (by omega)]

/-- The call `append(s, t...)` leaves a slice `u` as it was when `u` lies in
another backing array than `s`, or when `s` has no room for the elements of `t`. -/
theorem builtin.append_keeps_other (h : Heap) (s t u : Slice) (hu : u.WellFormed h)
    (hsep : u.array ≠ s.array ∨ s.cap < s.len + t.len) :
    u.elems (builtin.append h s t).1 = u.elems h := by
  obtain ⟨h0, -, -⟩ := hu
  unfold builtin.append
  split
  · rename_i hc
    rcases hsep with hne | hfull
    · simp only [Slice.elems]
      rw [Function.update_noteq hne]
    · omega
  · simp only [Slice.elems]
    rw [Function.update_noteq (by omega)]

/-- On well-formed slices `New` in memory returns the error that `New` returns
on the two lists, and fails exactly when it does. -/
theorem New_inMemory_error {H : Type} (E : Engine) (ctx : context.Context) (next : H)
    (h : Heap) (conf : ConfigInMemory) (name : String)
    (hw : conf.WhitelistPaths.WellFormed h) (hb : conf.BlacklistPaths.WellFormed h) :
    (New.inMemory E ctx next h conf name).2.2 = (New E ctx next (conf.load h) name).2 ∧
    ((New.inMemory E ctx next h conf name).2.1 = none ↔
      (New E ctx next (conf.load h) name).1 = none) := by
  unfold New.inMemory New
  simp only [builtin.append_elems h _ _ hw hb, ConfigInMemory.load]
  cases New.loop E (conf.WhitelistPaths.elems h ++ conf.BlacklistPaths.elems h) <;> simp

/-- The frame of `New` when the blacklist lies in another backing array than the
whitelist, or when the whitelist has no room behind it for the blacklist: the
two lists are after the call what they were before it, and the call returns what
`New` returns on the two lists. -/
theorem New_inMemory_frame {H : Type} (E : Engine) (ctx : context.Context) (next : H)
    (h : Heap) (conf : ConfigInMemory) (name : String)
    (hw : conf.WhitelistPaths.WellFormed h) (hb : conf.BlacklistPaths.WellFormed h)
    (hsep : conf.BlacklistPaths.array ≠ conf.WhitelistPaths.array ∨
      conf.WhitelistPaths.cap < conf.WhitelistPaths.len + conf.BlacklistPaths.len) :
    conf.load (New.inMemory E ctx next h conf name).1 = conf.load h ∧
    (New.inMemory E ctx next h conf name).2 = New E ctx next (conf.load h) name := by
  have hload : conf.load (builtin.append h conf.WhitelistPaths conf.BlacklistPaths).1
      = conf.load h := by
    simp only [ConfigInMemory.load, builtin.append_keeps_first h _ _ hw,
      builtin.append_keeps_other h _ _ _ hb hsep]
  unfold New.inMemory New
  simp only [builtin.append_elems h _ _ hw hb]
  have hcat : conf.WhitelistPaths.elems h ++ conf.BlacklistPaths.elems h
      = (conf.load h).WhitelistPaths ++ (conf.load h).BlacklistPaths := rfl
  rw [hcat]
  cases New.loop E ((conf.load h).WhitelistPaths ++ (conf.load h).BlacklistPaths) with
  | none => simp only [hload, and_self]
  | some e => simp only [hload, and_self]

theorem New_inMemory_heap {H : Type} (E : Engine) (ctx : context.Context) (next : H)
    (h : Heap) (conf : ConfigInMemory) (name : String) :
    (New.inMemory E ctx next h conf name).1
      = (builtin.append h conf.WhitelistPaths conf.BlacklistPaths).1 := by
  simp only [New.inMemory]
  split <;> rfl

/-- The whitelist is never changed by `New`, and `ServeHTTP` changes nothing. -/
theorem New_inMemory_keeps_whitelist {H W : Type} (E : Engine) (ctx : context.Context)
    (next : H) (h : Heap) (conf : ConfigInMemory) (name : String) (rw : W) (req : Request)
    (hw : conf.WhitelistPaths.WellFormed h) :
    (conf.load (New.inMemory E ctx next h conf name).1).WhitelistPaths
      = (conf.load h).WhitelistPaths ∧
    (ServeHTTP.inMemory E next name h conf rw req).1 = h := by
  refine ⟨?_, rfl⟩
  rw [New_inMemory_heap]
  exact builtin.append_keeps_first h conf.WhitelistPaths conf.BlacklistPaths hw

theorem overwrite_window_subset (a xs : List PathConfig) (i off len : Nat)
    (hxs : xs = (a.drop off).take len) (hlen : off + len ≤ a.length)
    (hi : i + len ≤ a.length) :
    ∀ x ∈ ((a.take i ++ xs ++ a.drop (i + len)).drop off).take len, x ∈ xs := by
  have hxl : xs.length = len := by
    rw [hxs]; simp; omega
  have hget : ∀ k, k < len → xs[k]? = a[off + k]? := by
    intro k hk
    rw [hxs, List.getElem?_take_of_lt hk, List.getElem?_drop]
  intro x hx
  rw [List.mem_iff_getElem?] at hx ⊢
  obtain ⟨k, hk⟩ := hx
  have hk' : k < len := by
    by_contra hge
    rw [List.getElem?_take_eq_none (by omega)] at hk
    cases hk
  rw [List.getElem?_take_of_lt hk', List.getElem?_drop] at hk
  by_cases h1 : off + k < i
  · rw [List.append_assoc, List.getElem?_append_left (by simp; omega),
      List.getElem?_take_of_lt h1] at hk
    exact ⟨k, by rw [hget k hk']; exact hk⟩
  · by_cases h2 : off + k < i + len
    · rw [List.getElem?_append_left (by simp; omega),
        List.getElem?_append_right (by simp; omega)] at hk
      exact ⟨_, hk⟩
    · rw [List.getElem?_append_right (by simp; omega), List.getElem?_drop] at hk
      refine ⟨k, ?_⟩
      rw [hget k hk', ← hk]
      congr 1
      simp
      omega

/-- Whatever the call `append(s, t...)` writes into `t`, it is an element that
`t` held before the call. -/
theorem builtin.append_second_subset (h : Heap) (s t : Slice) (hs : s.WellFormed h)
    (ht : t.WellFormed h) :
    ∀ x ∈ t.elems (builtin.append h s t).1, x ∈ t.elems h := by
  obtain ⟨hs0, hs1, hs2⟩ := hs
  obtain ⟨ht0, ht1, ht2⟩ := ht
  unfold builtin.append
  split
  · rename_i hc
    by_cases hne : t.array = s.array
    · rw [hne] at ht2
      have hsub := overwrite_window_subset (h.arrays s.array)
        (((h.arrays s.array).drop t.off).take t.len) (s.off + s.len) t.off t.len rfl
        (by omega) (by omega)
      intro x hx
      simp only [Slice.elems] at hx ⊢
      rw [hne] at hx ⊢
      rw [Function.update_same] at hx
      exact hsub x hx
    · intro x hx
      simp only [Slice.elems] at hx ⊢
      rw [Function.update_noteq hne] at hx
      exact hx
  · intro x hx
    simp only [Slice.elems] at hx ⊢
    rw [Function.update_noteq (by omega)] at hx
    exact hx

/-- Every rule of an evaluator that `New` in memory returned has been validated,
also when the call has overwritten a part of the blacklist: what it wrote there
are rules of the blacklist. -/
theorem New_inMemory_validated {H : Type} (E : Engine) (ctx : context.Context) (next : H)
    (h : Heap) (conf : ConfigInMemory) (name : String) (m : Middleware H)
    (hw : conf.WhitelistPaths.WellFormed h) (hb : conf.BlacklistPaths.WellFormed h)
    (hnew : (New.inMemory E ctx next h conf name).2 = (some m, none)) :
    ∀ pc, pc ∈ m.config.WhitelistPaths ∨ pc ∈ m.config.BlacklistPaths →
      Valid E pc.PathRegex ∧ Valid E pc.QueryParamRegex := by
  simp only [New.inMemory, builtin.append_elems h _ _ hw hb] at hnew
  cases hl : New.loop E (conf.WhitelistPaths.elems h ++ conf.BlacklistPaths.elems h) with
  | some e => rw [hl] at hnew; simp at hnew
  | none =>
    rw [hl] at hnew
    simp only [Prod.mk.injEq, Option.some.injEq, and_true] at hnew
    subst hnew
    have hall := (New_loop_eq_none_iff E _).1 hl
    intro pc hpc
    apply hall pc
    rcases hpc with hpc | hpc
    · have hk := builtin.append_keeps_first h conf.WhitelistPaths conf.BlacklistPaths hw
      simp only [ConfigInMemory.load] at hpc
      rw [hk] at hpc
      exact List.mem_append_left _ hpc
    · exact List.mem_append_right _
        (builtin.append_second_subset h _ _ hw hb pc hpc)

/-- C16 fails on a configuration whose two slices share a backing array.  With
`rules` the array of the rules for `/a`, `/b`, `/c`, `/d`, the whitelist
`rules[:1]` and the blacklist `rules[2:]`, the call of `append` in `New` writes
the blacklist behind the whitelist, into `rules[1]` and `rules[2]`: `New`
succeeds, and the blacklist of `conf`, which was the rules for `/c` and `/d`, is
then twice the rule for `/d`.  The evaluator returned lets `/c` through, a
request that the rule set given to `New` denies. -/
theorem New_overwrites_blacklist_in_shared_array :
    sharedArrayConfig.WhitelistPaths.WellFormed fourRules ∧
    sharedArrayConfig.BlacklistPaths.WellFormed fourRules ∧
    sharedArrayConfig.load fourRules
      = ⟨[⟨"^/a$", ""⟩], [⟨"^/c$", ""⟩, ⟨"^/d$", ""⟩]⟩ ∧
    (New.inMemory RE2.engine () "next" fourRules sharedArrayConfig "requestpolicy").2.2.isNone
      = true ∧
    sharedArrayConfig.load
        (New.inMemory RE2.engine () "next" fourRules sharedArrayConfig "requestpolicy").1
      = ⟨[⟨"^/a$", ""⟩], [⟨"^/d$", ""⟩, ⟨"^/d$", ""⟩]⟩ ∧
    (New.inMemory RE2.engine () "next" fourRules sharedArrayConfig "requestpolicy").2.1.map
        (fun m => m.config)
      = some ⟨[⟨"^/a$", ""⟩], [⟨"^/d$", ""⟩, ⟨"^/d$", ""⟩]⟩ ∧
    ServeHTTP RE2.engine ⟨"next", "requestpolicy", sharedArrayConfig.load fourRules⟩ (7 : Nat)
        (testRequest "/c" "") = [Call.httpError 7 "Forbidden" 403] ∧
    ServeHTTP RE2.engine ⟨"next", "requestpolicy", sharedArrayConfig.load
        (New.inMemory RE2.engine () "next" fourRules sharedArrayConfig "requestpolicy").1⟩
        (7 : Nat) (testRequest "/c" "")
      = [Call.nextServeHTTP "next" 7 (testRequest "/c" "")] := by
  refine ⟨by decide, by decide, by decide, by decide, by decide, by decide, by decide,
    by decide⟩

end requestpolicy
